import Mathlib

/-!
# Verification of the notary-arweave-bundler protocol core

Shallow embedding of the repository's protocol layer:
the ANS-104 DataItem binary decoder (`parseDataItem`), the Avro tag
decoder (`decodeAvroTags`, `readZigzagVarint`), the Arweave deep-hash
(`deepHash`), the schema validator (`validateDataItem`) and the bundle
assembler (`assembleBundle`).  Buffers are `List Nat` of byte values;
JavaScript 32-bit bitwise semantics are modelled explicitly where the
source relies on them.  Node built-ins (SHA-256/384, base64url, UTF-8
decoding with replacement, `JSON.parse`) are modelled from their
standards, since the source calls them as primitives.
-/

/-! ## JavaScript 32-bit integer semantics -/

/-- Interpret an integer as a JavaScript unsigned 32-bit value (`ToUint32`). -/
def toUint32 (n : Int) : Nat := (n % 4294967296).toNat

/-- Interpret an integer as a JavaScript signed 32-bit value (`ToInt32`). -/
def toInt32 (n : Int) : Int :=
  let m := n % 4294967296
  if m < 2147483648 then m else m - 4294967296

/-- JavaScript `a & b` on numbers (32-bit signed result). -/
def jsAnd (a b : Int) : Int := toInt32 (Nat.land (toUint32 a) (toUint32 b))

/-- JavaScript `a | b` on numbers (32-bit signed result). -/
def jsOr (a b : Int) : Int := toInt32 (Nat.lor (toUint32 a) (toUint32 b))

/-- JavaScript `a ^ b` on numbers (32-bit signed result). -/
def jsXor (a b : Int) : Int := toInt32 (Nat.xor (toUint32 a) (toUint32 b))

/-- JavaScript `a << b` on numbers (shift count taken mod 32). -/
def jsShl (a b : Int) : Int := toInt32 ((toUint32 a) <<< ((toUint32 b) % 32))

/-- JavaScript `a >>> b` (unsigned right shift, nonnegative result). -/
def jsShrU (a b : Int) : Int := ((toUint32 a) >>> ((toUint32 b) % 32) : Nat)

/-! ## Byte-buffer primitives (Node `Buffer` semantics) -/

/-- `buffer.subarray(s, e)` for nonnegative `s ≤ e`: the bytes `[s, e)`,
clamped to the buffer, never failing. -/
def sub (l : List Nat) (s e : Nat) : List Nat := (l.take e).drop s

/-- `Uint8Array.subarray` with arbitrary integer arguments: negative
indices count from the end, everything is clamped. -/
def subI (l : List Nat) (s e : Int) : List Nat :=
  let len : Int := l.length
  let s' : Nat := (if s < 0 then max (len + s) 0 else min s len).toNat
  let e' : Nat := (if e < 0 then max (len + e) 0 else min e len).toNat
  (l.take e').drop s'

/-- `buffer.readUInt16LE 0` (the bounds check is made by the caller). -/
def readUInt16LE (l : List Nat) (off : Nat) : Nat :=
  l.getD off 0 + 256 * l.getD (off + 1) 0

/-- `buffer.readBigUInt64LE off` value: the 8 bytes at `off`
little-endian (the bounds check is made by the caller). -/
def readU64LE (l : List Nat) (off : Nat) : Nat :=
  (sub l off (off + 8)).reverse.foldl (fun acc b => acc * 256 + b) 0

/-- Little-endian bytes of `n % 2^64` (8 bytes). -/
def le64spec (n : Nat) : List Nat := (List.range 8).map fun i => n / 256 ^ i % 256

/-! ## SHA-256 and SHA-384, modelled from FIPS 180-4

The round constants are the fractional parts of the square/cube roots of
the first primes, computed here by integer root extraction rather than
transcribed, so they are correct by construction.  (The implementations
reproduce the standard test vectors, e.g.
`sha256 "abc" = ba7816bf…15ad` and `sha384 "abc" = cb00753f…25a7`.) -/

/-- The first 80 primes (moduli for the SHA-2 constants). -/
def sha2Primes : List Nat :=
  [2, 3, 5, 7, 11, 13, 17, 19, 23, 29, 31, 37, 41, 43, 47, 53, 59, 61, 67, 71,
   73, 79, 83, 89, 97, 101, 103, 107, 109, 113, 127, 131, 137, 139, 149, 151,
   157, 163, 167, 173, 179, 181, 191, 193, 197, 199, 211, 223, 227, 229, 233,
   239, 241, 251, 257, 263, 269, 271, 277, 281, 283, 293, 307, 311, 313, 317,
   331, 337, 347, 349, 353, 359, 367, 373, 379, 383, 389, 397, 401, 409]

/-- Bisection step for the integer square root. -/
def isqrtAux : Nat → Nat → Nat → Nat → Nat
  | 0, lo, _, _ => lo
  | f + 1, lo, hi, n =>
    if hi ≤ lo + 1 then lo
    else
      let mid := (lo + hi) / 2
      if mid ^ 2 ≤ n then isqrtAux f mid hi n else isqrtAux f lo mid n

/-- Integer square root (floor). -/
def isqrt (n : Nat) : Nat := isqrtAux 300 0 (n + 2) n

/-- Bisection step for the integer cube root. -/
def icbrtAux : Nat → Nat → Nat → Nat → Nat
  | 0, lo, _, _ => lo
  | f + 1, lo, hi, n =>
    if hi ≤ lo + 1 then lo
    else
      let mid := (lo + hi) / 2
      if mid ^ 3 ≤ n then icbrtAux f mid hi n else icbrtAux f lo mid n

/-- Integer cube root (floor). -/
def icbrt (n : Nat) : Nat := icbrtAux 300 0 (n + 2) n

/-- SHA-256 round constants: fractional cube roots of the first 64 primes. -/
def shaK256 : List Nat :=
  (sha2Primes.take 64).map fun p => icbrt (p * 2 ^ 96) % 2 ^ 32

/-- SHA-256 initial state: fractional square roots of the first 8 primes. -/
def shaH256 : List Nat :=
  (sha2Primes.take 8).map fun p => isqrt (p * 2 ^ 64) % 2 ^ 32

/-- SHA-512 family round constants: fractional cube roots of the first 80 primes. -/
def shaK512 : List Nat :=
  sha2Primes.map fun p => icbrt (p * 2 ^ 192) % 2 ^ 64

/-- SHA-384 initial state: fractional square roots of the 9th through 16th primes. -/
def shaH384 : List Nat :=
  ((sha2Primes.drop 8).take 8).map fun p => isqrt (p * 2 ^ 128) % 2 ^ 64

/-- Rotate a `w`-bit word right by `n`. -/
def rotr (w n x : Nat) : Nat := Nat.lor (x >>> n) ((x % 2 ^ n) <<< (w - n))

/-- SHA-2 `Ch` within `w` bits. -/
def sha2Ch (w x y z : Nat) : Nat :=
  Nat.xor (Nat.land x y) (Nat.land (Nat.xor x (2 ^ w - 1)) z)

/-- SHA-2 `Maj`. -/
def sha2Maj (x y z : Nat) : Nat :=
  Nat.xor (Nat.land x y) (Nat.xor (Nat.land x z) (Nat.land y z))

/-- SHA-2 working state: eight `w`-bit words. -/
structure Sha2State where
  a : Nat
  b : Nat
  c : Nat
  d : Nat
  e : Nat
  f : Nat
  g : Nat
  h : Nat
deriving Repr, DecidableEq

/-- Eight words of a list as a state (missing entries zero). -/
def stateOfList (l : List Nat) : Sha2State :=
  ⟨l.getD 0 0, l.getD 1 0, l.getD 2 0, l.getD 3 0,
   l.getD 4 0, l.getD 5 0, l.getD 6 0, l.getD 7 0⟩

/-- Pointwise modular sum of two states. -/
def stateAdd (w : Nat) (s t : Sha2State) : Sha2State :=
  ⟨(s.a + t.a) % 2 ^ w, (s.b + t.b) % 2 ^ w, (s.c + t.c) % 2 ^ w,
   (s.d + t.d) % 2 ^ w, (s.e + t.e) % 2 ^ w, (s.f + t.f) % 2 ^ w,
   (s.g + t.g) % 2 ^ w, (s.h + t.h) % 2 ^ w⟩

/-- One SHA-2 round, parameterized by word size and the Σ rotation amounts. -/
def sha2Round (w r1 r2 r3 r4 r5 r6 : Nat) (s : Sha2State) (k wt : Nat) : Sha2State :=
  let bigS1 := Nat.xor (rotr w r4 s.e) (Nat.xor (rotr w r5 s.e) (rotr w r6 s.e))
  let t1 := (s.h + bigS1 + sha2Ch w s.e s.f s.g + k + wt) % 2 ^ w
  let bigS0 := Nat.xor (rotr w r1 s.a) (Nat.xor (rotr w r2 s.a) (rotr w r3 s.a))
  let t2 := (bigS0 + sha2Maj s.a s.b s.c) % 2 ^ w
  ⟨(t1 + t2) % 2 ^ w, s.a, s.b, s.c, (s.d + t1) % 2 ^ w, s.e, s.f, s.g⟩

/-- Extend a 16-word block to the full message schedule. -/
def sha2Schedule (w σ01 σ02 σ03 σ11 σ12 σ13 rounds : Nat) (block : List Nat) : List Nat :=
  (List.range (rounds - 16)).foldl
    (fun ws _ =>
      let n := ws.length
      let s0 :=
        Nat.xor (rotr w σ01 (ws.getD (n - 15) 0))
          (Nat.xor (rotr w σ02 (ws.getD (n - 15) 0)) ((ws.getD (n - 15) 0) >>> σ03))
      let s1 :=
        Nat.xor (rotr w σ11 (ws.getD (n - 2) 0))
          (Nat.xor (rotr w σ12 (ws.getD (n - 2) 0)) ((ws.getD (n - 2) 0) >>> σ13))
      ws ++ [(ws.getD (n - 16) 0 + s0 + ws.getD (n - 7) 0 + s1) % 2 ^ w])
    block

/-- Chunking loop; the fuel always suffices since every step consumes at
least one element (`n ≥ 1` at the use sites). -/
def chunkGo : Nat → Nat → List α → List (List α)
  | _, _, [] => []
  | 0, _, _ => []
  | f + 1, n, x :: xs => (x :: xs.take (n - 1)) :: chunkGo f n (xs.drop (n - 1))

/-- Split a list into chunks of `n`. -/
def chunkList (n : Nat) (l : List α) : List (List α) := chunkGo l.length n l

/-- Big-endian `bytes`-byte encoding of `n`. -/
def beBytes (bytes n : Nat) : List Nat :=
  (List.range bytes).map fun i => n / 256 ^ (bytes - 1 - i) % 256

/-- Group consecutive bytes big-endian into `bytes`-byte words. -/
def bytesToWords (bytes : Nat) (l : List Nat) : List Nat :=
  (chunkList bytes l).map fun c => c.foldl (fun acc b => acc * 256 + b) 0

/-- Words back to big-endian bytes. -/
def wordToBytes (bytes w : Nat) : List Nat := beBytes bytes w

/-- Merkle–Damgård padding: `0x80`, zeros, and the bit length in a
`lenBytes`-byte big-endian field, to a multiple of `blockLen`. -/
def sha2Pad (blockLen lenBytes : Nat) (msg : List Nat) : List Nat :=
  let z := (blockLen - (msg.length + 1 + lenBytes) % blockLen) % blockLen
  msg ++ [0x80] ++ List.replicate z 0 ++ beBytes lenBytes (8 * msg.length)

/-- Generic SHA-2 compression of one block into the chaining state. -/
def sha2Compress (w r1 r2 r3 r4 r5 r6 σ01 σ02 σ03 σ11 σ12 σ13 rounds : Nat)
    (ks : List Nat) (st : Sha2State) (block : List Nat) : Sha2State :=
  let ws := sha2Schedule w σ01 σ02 σ03 σ11 σ12 σ13 rounds block
  let fin := (ks.zip ws).foldl (fun s kw => sha2Round w r1 r2 r3 r4 r5 r6 s kw.1 kw.2) st
  stateAdd w st fin

/-- SHA-256 of a byte list, as a 32-byte list. -/
def sha256 (msg : List Nat) : List Nat :=
  let blocks := chunkList 64 (sha2Pad 64 8 msg)
  let st := blocks.foldl
    (fun s b => sha2Compress 32 2 13 22 6 11 25 7 18 3 17 19 10 64 shaK256 s (bytesToWords 4 b))
    (stateOfList shaH256)
  ([st.a, st.b, st.c, st.d, st.e, st.f, st.g, st.h]).flatMap (wordToBytes 4)

/-- SHA-384 of a byte list, as a 48-byte list (SHA-512 truncated to six words). -/
def sha384 (msg : List Nat) : List Nat :=
  let blocks := chunkList 128 (sha2Pad 128 16 msg)
  let st := blocks.foldl
    (fun s b => sha2Compress 64 28 34 39 14 18 41 1 8 7 19 61 6 80 shaK512 s (bytesToWords 8 b))
    (stateOfList shaH384)
  ([st.a, st.b, st.c, st.d, st.e, st.f]).flatMap (wordToBytes 8)

/-! ## base64url (RFC 4648 URL alphabet, unpadded), as Node's `"base64url"` -/

/-- The base64url alphabet. -/
def b64Alphabet : List Char :=
  "ABCDEFGHIJKLMNOPQRSTUVWXYZabcdefghijklmnopqrstuvwxyz0123456789-_".toList

/-- One base64url digit. -/
def b64Digit (n : Nat) : Char := b64Alphabet.getD n '?'

/-- Unpadded base64url encoding of a byte list. -/
def base64url : List Nat → String
  | [] => ""
  | [a] => String.mk [b64Digit (a / 4), b64Digit (a % 4 * 16)]
  | [a, b] => String.mk [b64Digit (a / 4), b64Digit (a % 4 * 16 + b / 16), b64Digit (b % 16 * 4)]
  | a :: b :: c :: rest =>
    String.mk [b64Digit (a / 4), b64Digit (a % 4 * 16 + b / 16),
      b64Digit (b % 16 * 4 + c / 64), b64Digit (c % 64)] ++ base64url rest

/-! ## UTF-8 decoding with U+FFFD replacement

Node's `buf.toString("utf-8")` decodes per WHATWG: invalid sequences
become U+FFFD (one replacement per maximal invalid subpart, resuming at
the offending byte). -/

/-- The replacement character. -/
def replChar : Char := Char.ofNat 0xFFFD

/-- Is `b` a UTF-8 continuation byte in `[lo, hi]`? -/
def contIn (lo hi b : Nat) : Bool := lo ≤ b && b ≤ hi

/-- WHATWG UTF-8 decode loop; every step consumes at least one byte, so
fuel equal to the byte count always suffices. -/
def utf8DecGo : Nat → List Nat → List Char
  | 0, _ => []
  | f + 1, l =>
    match l with
    | [] => []
    | b :: rest =>
      if b < 0x80 then Char.ofNat b :: utf8DecGo f rest
      else if b < 0xC2 then replChar :: utf8DecGo f rest
      else if b < 0xE0 then
        match rest with
        | [] => [replChar]
        | c1 :: rs =>
          if contIn 0x80 0xBF c1 then
            Char.ofNat ((b - 0xC0) * 64 + (c1 - 0x80)) :: utf8DecGo f rs
          else replChar :: utf8DecGo f (c1 :: rs)
      else if b < 0xF0 then
        let lo1 := if b = 0xE0 then 0xA0 else 0x80
        let hi1 := if b = 0xED then 0x9F else 0xBF
        match rest with
        | [] => [replChar]
        | c1 :: rs =>
          if contIn lo1 hi1 c1 then
            match rs with
            | [] => [replChar, replChar]
            | c2 :: rs2 =>
              if contIn 0x80 0xBF c2 then
                Char.ofNat ((b - 0xE0) * 4096 + (c1 - 0x80) * 64 + (c2 - 0x80)) ::
                  utf8DecGo f rs2
              else replChar :: utf8DecGo f (c2 :: rs2)
          else replChar :: utf8DecGo f (c1 :: rs)
      else if b < 0xF5 then
        let lo1 := if b = 0xF0 then 0x90 else 0x80
        let hi1 := if b = 0xF4 then 0x8F else 0xBF
        match rest with
        | [] => [replChar]
        | c1 :: rs =>
          if contIn lo1 hi1 c1 then
            match rs with
            | [] => [replChar, replChar]
            | c2 :: rs2 =>
              if contIn 0x80 0xBF c2 then
                match rs2 with
                | [] => [replChar, replChar, replChar]
                | c3 :: rs3 =>
                  if contIn 0x80 0xBF c3 then
                    Char.ofNat ((b - 0xF0) * 262144 + (c1 - 0x80) * 4096 +
                      (c2 - 0x80) * 64 + (c3 - 0x80)) :: utf8DecGo f rs3
                  else replChar :: utf8DecGo f (c3 :: rs3)
              else replChar :: utf8DecGo f (c2 :: rs2)
          else replChar :: utf8DecGo f (c1 :: rs)
      else replChar :: utf8DecGo f rest

/-- WHATWG UTF-8 decode with replacement. -/
def utf8Dec (l : List Nat) : List Char := utf8DecGo l.length l

/-- `buf.toString("utf-8")` as a Lean string. -/
def utf8Str (l : List Nat) : String := String.mk (utf8Dec l)

/-- UTF-8 bytes of an ASCII string (all source literals are ASCII). -/
def asciiBytes (s : String) : List Nat := s.toList.map Char.toNat

/-- `.replace(/\0+$/, "")`: strip trailing NUL characters. -/
def trimNulTail (l : List Char) : List Char :=
  (l.reverse.dropWhile (fun c => c = Char.ofNat 0)).reverse

/-- `n.toString()`: decimal ASCII bytes of a number. -/
def decAscii (n : Nat) : List Nat := asciiBytes (toString n)

/-! ## Arweave deep-hash (`deepHash` in the source) -/

/-- The `DeepHashChunk` tree: a byte string or an ordered list of chunks. -/
inductive DeepHashChunk where
  | blob : List Nat → DeepHashChunk
  | node : List DeepHashChunk → DeepHashChunk
deriving Repr

mutual

/-- The source's `deepHash`: a blob hashes as
`sha384(sha384("blob" ++ len) ++ sha384(data))`; a list seeds the
accumulator with `sha384("list" ++ len)` and folds the children. -/
def deepHash : DeepHashChunk → List Nat
  | .blob d =>
    sha384 (sha384 (asciiBytes "blob" ++ decAscii d.length) ++ sha384 d)
  | .node cs => deepHashFold cs (sha384 (asciiBytes "list" ++ decAscii cs.length))

/-- The source's `for (const chunk of data) acc = sha384(acc ++ deepHash chunk)`. -/
def deepHashFold : List DeepHashChunk → List Nat → List Nat
  | [], acc => acc
  | c :: cs, acc => deepHashFold cs (sha384 (acc ++ deepHash c))

end

/-- The deep-hash input built by `verifyDataItem`:
`["dataitem", "1", "1", owner, target ?? empty, anchor ?? empty, tagBytes, data]`.
This is the message handed to the RSA-PSS verifier (the PSS call itself is
external crypto and not modelled). -/
def dataItemSignatureData (owner : List Nat) (target anchor : Option (List Nat))
    (tagBytes data : List Nat) : List Nat :=
  deepHash (.node
    [.blob (asciiBytes "dataitem"), .blob (asciiBytes "1"), .blob (asciiBytes "1"),
     .blob owner, .blob (target.getD []), .blob (anchor.getD []),
     .blob tagBytes, .blob data])

/-! ## Avro zig-zag varint reader (`readZigzagVarint`)

JavaScript note: `buf[pos]` out of bounds yields `undefined`, and
`undefined & 0x7f` is `0` with the continuation bit clear, so the reader
*terminates* at the end of the buffer instead of failing; the phantom
byte is still counted in `bytesRead`. -/

/-- The reader's loop. `fuel` strictly exceeds the possible iterations
(`pos` increases and the loop stops at the buffer end); the fuel-exhausted
arm returns like a break and is unreachable. -/
def rzvLoop : Nat → List Nat → Int → Int → Int → Int × Nat
  | 0, _, pos, result, start => (result, (pos - start).toNat)
  | fuel + 1, buf, pos, result, start =>
    let byte : Int := if 0 ≤ pos ∧ pos.toNat < buf.length then (buf.getD pos.toNat 0 : Int) else 0
    let result := jsOr result (jsShl (jsAnd byte 0x7f) ((pos - start) * 7))
    if jsAnd byte 0x80 = 0 then (result, (pos + 1 - start).toNat)
    else rzvLoop fuel buf (pos + 1) result start

/-- `readZigzagVarint(buf, offset)`: returns the zig-zag decoded value and
the number of byte positions consumed. -/
def readZigzagVarint (buf : List Nat) (offset : Int) : Int × Nat :=
  let r := rzvLoop (buf.length + 2) buf offset 0 offset
  (jsXor (jsShrU r.1 1) (-(jsAnd r.1 1)), r.2)


/-! ## Avro tag decoding (`decodeAvroTags`) -/

/-- A decoded tag: `{ name, value }`. -/
structure Tag where
  name : String
  value : String
deriving Repr, DecidableEq, Inhabited

/-- Decode failures surfaced by the decoder pipeline.  `nonterminating`
models the source's divergence (its tag-decoding loop can fail to
terminate on adversarial inputs); the code never returns it on inputs
where the JavaScript loop terminates within the modelled fuel. -/
inductive ParseErr where
  | outOfRange
  | unsupportedSigType (t : Nat)
  | tagCountMismatch (header decoded : Nat)
  | nonterminating
deriving Repr, DecidableEq

/-- The inner `for (let i = 0; i < count; i++)` of `decodeAvroTags`:
read `count` (name, value) pairs, each as `(len, bytes, len, bytes)`,
with every read clamped, never failing. -/
def readPairs : Nat → List Nat → Int → List Tag × Int
  | 0, _, off => ([], off)
  | n + 1, buf, off =>
    let nl := readZigzagVarint buf off
    let off := off + (nl.2 : Int)
    let name := utf8Str (subI buf off (off + nl.1))
    let off := off + nl.1
    let vl := readZigzagVarint buf off
    let off := off + (vl.2 : Int)
    let value := utf8Str (subI buf off (off + vl.1))
    let off := off + vl.1
    let rest := readPairs n buf off
    (⟨name, value⟩ :: rest.1, rest.2)

/-- The outer `while (offset < buf.length)` loop of `decodeAvroTags`.
`fuel` bounds the outer iterations; on exhaustion the divergence marker
is returned (see `ParseErr.nonterminating`). -/
def avroLoop : Nat → List Nat → Int → List Tag → Except ParseErr (List Tag)
  | 0, _, _, _ => .error .nonterminating
  | fuel + 1, buf, offset, acc =>
    if offset < (buf.length : Int) then
      let bc := readZigzagVarint buf offset
      let offset := offset + (bc.2 : Int)
      if bc.1 = 0 then .ok acc
      else
        let count := bc.1.natAbs
        let offset := if bc.1 < 0 then offset + ((readZigzagVarint buf offset).2 : Int) else offset
        let pairs := readPairs count buf offset
        avroLoop fuel buf pairs.2 (acc ++ pairs.1)
    else .ok acc

/-- `decodeAvroTags(buf)`. -/
def decodeAvroTags (buf : List Nat) : Except ParseErr (List Tag) :=
  avroLoop (buf.length + 1) buf 0 []

/-! ## The DataItem decoder (`parseDataItem`) -/

/-- Target-present flag byte (`buffer[1026]`); `none` when out of bounds
(JavaScript `undefined`). -/
def targetFlagAt (b : List Nat) : Option Nat := b[1026]?

/-- Offset of the anchor-present flag byte. -/
def anchorFlagOff (b : List Nat) : Nat :=
  if targetFlagAt b = some 1 then 1059 else 1027

/-- The raw 32-byte target when the flag byte equals 1 (any other value,
`0` included, leaves the target absent). -/
def targetRawOf (b : List Nat) : Option (List Nat) :=
  if targetFlagAt b = some 1 then some (sub b 1027 1059) else none

/-- Anchor-present flag byte; `none` when out of bounds. -/
def anchorFlagAt (b : List Nat) : Option Nat := b[anchorFlagOff b]?

/-- The raw 32-byte anchor when its flag byte equals 1. -/
def anchorRawOf (b : List Nat) : Option (List Nat) :=
  if anchorFlagAt b = some 1 then
    some (sub b (anchorFlagOff b + 1) (anchorFlagOff b + 33))
  else none

/-- Offset of the 8-byte tag count field. -/
def tagCountOff (b : List Nat) : Nat :=
  anchorFlagOff b + (if anchorFlagAt b = some 1 then 33 else 1)

/-- Header-declared tag count. -/
def tagCountOf (b : List Nat) : Nat := readU64LE b (tagCountOff b)

/-- Header-declared byte length of the Avro tag region. -/
def tagBytesLenOf (b : List Nat) : Nat := readU64LE b (tagCountOff b + 8)

/-- Offset of the Avro tag region. -/
def tagsStart (b : List Nat) : Nat := tagCountOff b + 16

/-- The raw on-wire Avro tag region (clamped slice). -/
def tagRegionOf (b : List Nat) : List Nat :=
  sub b (tagsStart b) (tagsStart b + tagBytesLenOf b)

/-- The data payload: everything after the tag region. -/
def dataOf (b : List Nat) : List Nat := b.drop (tagsStart b + tagBytesLenOf b)

/-- The decoder's result.  The first seven fields are the source's
`ParsedDataItem`; the `…Raw` fields are the raw slices captured by its
`isValid` closure (signature, owner, target, anchor, tag region, data). -/
structure ParsedDataItem where
  id : String
  signatureType : Nat
  owner : String
  target : Option String
  anchor : Option String
  tags : List Tag
  rawData : List Nat
  sigRaw : List Nat
  ownerRaw : List Nat
  targetRaw : Option (List Nat)
  anchorRaw : Option (List Nat)
  tagBytesRaw : List Nat
deriving Repr, DecidableEq, Inhabited

/-- `parseDataItem(buffer)`: the fixed signature-type-1 layout.
Bounds errors from `readUInt16LE`/`readBigUInt64LE` and the tag-count
mismatch surface as `Except.error`; flag bytes are compared against `1`
only, exactly as in the source. -/
def parseDataItem (b : List Nat) : Except ParseErr ParsedDataItem :=
  if b.length < 2 then .error .outOfRange
  else if readUInt16LE b 0 ≠ 1 then .error (.unsupportedSigType (readUInt16LE b 0))
  else if b.length < tagCountOff b + 8 then .error .outOfRange
  else if b.length < tagCountOff b + 16 then .error .outOfRange
  else
    match (if 0 < tagBytesLenOf b then decodeAvroTags (tagRegionOf b) else .ok []) with
    | .error e => .error e
    | .ok tags =>
      if tags.length ≠ tagCountOf b then .error (.tagCountMismatch (tagCountOf b) tags.length)
      else
        .ok
          { id := base64url (sha256 (sub b 2 514))
            signatureType := readUInt16LE b 0
            owner := base64url (sub b 514 1026)
            target := (targetRawOf b).map base64url
            anchor := (anchorRawOf b).bind fun a =>
              let s := trimNulTail (utf8Dec a)
              if s = [] then none else some (String.mk s)
            tags := tags
            rawData := dataOf b
            sigRaw := sub b 2 514
            ownerRaw := sub b 514 1026
            targetRaw := targetRawOf b
            anchorRaw := anchorRawOf b
            tagBytesRaw := tagRegionOf b }

/-! ## A JSON value model (`JSON.parse`)

`JSON.parse` is a Node built-in; this models its grammar.  Number
lexemes are kept as text (the validator only ever distinguishes strings
from non-strings).  Objects follow JavaScript property semantics:
a duplicate key overwrites the value but keeps the first position, so
key lists are duplicate-free by construction. -/

inductive Json where
  | null : Json
  | bool : Bool → Json
  | num : String → Json
  | str : String → Json
  | arr : List Json → Json
  | obj : List (String × Json) → Json
deriving Repr, Inhabited

/-- JavaScript property assignment on an ordered key-value list. -/
def objInsert (kvs : List (String × Json)) (k : String) (v : Json) : List (String × Json) :=
  if kvs.any (fun p => p.1 = k) then kvs.map (fun p => if p.1 = k then (k, v) else p)
  else kvs ++ [(k, v)]

/-- Build a JavaScript object from parsed members in order. -/
def buildObj (ms : List (String × Json)) : List (String × Json) :=
  ms.foldl (fun acc m => objInsert acc m.1 m.2) []

/-- Property lookup. -/
def jlookup (kvs : List (String × Json)) (k : String) : Option Json :=
  (kvs.find? (fun p => p.1 = k)).map (·.2)

/-- JSON whitespace. -/
def jsonWs (c : Char) : Bool := c = ' ' || c = '\t' || c = '\n' || c = '\r'

/-- ASCII digit. -/
def isDigitCh (c : Char) : Bool := '0' ≤ c && c ≤ '9'

/-- Hex digit value. -/
def hexVal (c : Char) : Option Nat :=
  if '0' ≤ c && c ≤ '9' then some (c.toNat - 48)
  else if 'a' ≤ c && c ≤ 'f' then some (c.toNat - 87)
  else if 'A' ≤ c && c ≤ 'F' then some (c.toNat - 70)
  else none

/-- Parse a JSON string body after the opening quote.  `\uXXXX` escapes
that name an invalid scalar (lone surrogates) become U+FFFD, a
representability compromise noted in the module header. -/
def parseJStrGo : Nat → List Char → Option (List Char × List Char)
  | 0, _ => none
  | f + 1, l =>
    match l with
    | [] => none
    | '"' :: rest => some ([], rest)
    | '\\' :: e :: rest =>
      (match e with
       | '"' => (parseJStrGo f rest).map fun r => ('"' :: r.1, r.2)
       | '\\' => (parseJStrGo f rest).map fun r => ('\\' :: r.1, r.2)
       | '/' => (parseJStrGo f rest).map fun r => ('/' :: r.1, r.2)
       | 'b' => (parseJStrGo f rest).map fun r => (Char.ofNat 8 :: r.1, r.2)
       | 'f' => (parseJStrGo f rest).map fun r => (Char.ofNat 12 :: r.1, r.2)
       | 'n' => (parseJStrGo f rest).map fun r => ('\n' :: r.1, r.2)
       | 'r' => (parseJStrGo f rest).map fun r => (Char.ofNat 13 :: r.1, r.2)
       | 't' => (parseJStrGo f rest).map fun r => ('\t' :: r.1, r.2)
       | 'u' =>
         match rest with
         | h1 :: h2 :: h3 :: h4 :: rs =>
           match hexVal h1, hexVal h2, hexVal h3, hexVal h4 with
           | some a, some b, some c, some d =>
             (parseJStrGo f rs).map fun r =>
               (Char.ofNat (a * 4096 + b * 256 + c * 16 + d) :: r.1, r.2)
           | _, _, _, _ => none
         | _ => none
       | _ => none)
    | c :: rest =>
      if c.toNat < 0x20 then none
      else (parseJStrGo f rest).map fun r => (c :: r.1, r.2)

/-- Parse a JSON string body (fuel: the input length always suffices). -/
def parseJStr (l : List Char) : Option (List Char × List Char) := parseJStrGo l.length l


/-- Take leading digits. -/
def spanDigits (l : List Char) : List Char × List Char :=
  (l.takeWhile isDigitCh, l.dropWhile isDigitCh)

/-- Parse a JSON number lexeme (`-? int frac? exp?`); returns the lexeme
and the remainder. -/
def parseJNum (l : List Char) : Option (List Char × List Char) :=
  let (neg, l1) := match l with
    | '-' :: r => (['-'], r)
    | _ => ([], l)
  match l1 with
  | [] => none
  | c :: _ =>
    if ¬ isDigitCh c then none
    else
      let (ip, r1) :=
        if c = '0' then (['0'], l1.tail)
        else spanDigits l1
      let (fp, r2) := match r1 with
        | '.' :: d :: rs =>
          if isDigitCh d then
            let s := spanDigits (d :: rs)
            ('.' :: s.1, s.2)
          else ([], r1)
        | _ => ([], r1)
      if fp.isEmpty && (match r1 with | '.' :: _ => true | _ => false) then none
      else
        let (ep, r3) := match r2 with
          | e :: rs =>
            if e = 'e' ∨ e = 'E' then
              match rs with
              | s :: d :: rs2 =>
                if (s = '+' ∨ s = '-') ∧ isDigitCh d then
                  let sp := spanDigits (d :: rs2)
                  (e :: s :: sp.1, sp.2)
                else if isDigitCh s then
                  let sp := spanDigits (s :: d :: rs2)
                  (e :: sp.1, sp.2)
                else ([], r2)
              | [s] =>
                if isDigitCh s then ([e, s], [])
                else ([], r2)
              | [] => ([], r2)
            else ([], r2)
          | [] => ([], r2)
        if ep.isEmpty && (match r2 with | e :: _ => e = 'e' || e = 'E' | _ => false) then none
        else some (neg ++ ip ++ fp ++ ep, r3)

mutual

/-- Parse one JSON value. `fuel` exceeds the nesting depth (every
recursion consumes at least one character). -/
def parseJVal : Nat → List Char → Option (Json × List Char)
  | 0, _ => none
  | fuel + 1, l =>
    let l := l.dropWhile jsonWs
    match l with
    | [] => none
    | c :: rest =>
      if c = 'n' then
        match l with
        | 'n' :: 'u' :: 'l' :: 'l' :: r => some (.null, r)
        | _ => none
      else if c = 't' then
        match l with
        | 't' :: 'r' :: 'u' :: 'e' :: r => some (.bool true, r)
        | _ => none
      else if c = 'f' then
        match l with
        | 'f' :: 'a' :: 'l' :: 's' :: 'e' :: r => some (.bool false, r)
        | _ => none
      else if c = '"' then
        (parseJStr rest).map fun r => (.str (String.mk r.1), r.2)
      else if c = '[' then
        let r1 := rest.dropWhile jsonWs
        match r1 with
        | ']' :: r2 => some (.arr [], r2)
        | _ => parseJElems fuel rest []
      else if c = '\x7b' then
        let r1 := rest.dropWhile jsonWs
        match r1 with
        | '\x7d' :: r2 => some (.obj [], r2)
        | _ => parseJMembers fuel rest []
      else
        (parseJNum l).map fun r => (.num (String.mk r.1), r.2)

/-- Comma-separated array elements up to `]`. -/
def parseJElems : Nat → List Char → List Json → Option (Json × List Char)
  | 0, _, _ => none
  | fuel + 1, l, acc =>
    match parseJVal fuel l with
    | none => none
    | some (v, r) =>
      let r := r.dropWhile jsonWs
      match r with
      | ',' :: r2 => parseJElems fuel r2 (acc ++ [v])
      | ']' :: r2 => some (.arr (acc ++ [v]), r2)
      | _ => none

/-- Comma-separated `"key": value` members up to `}`. -/
def parseJMembers : Nat → List Char → List (String × Json) → Option (Json × List Char)
  | 0, _, _ => none
  | fuel + 1, l, acc =>
    let l := l.dropWhile jsonWs
    match l with
    | '"' :: r =>
      match parseJStr r with
      | none => none
      | some (k, r1) =>
        let r1 := r1.dropWhile jsonWs
        match r1 with
        | ':' :: r2 =>
          match parseJVal fuel r2 with
          | none => none
          | some (v, r3) =>
            let r3 := r3.dropWhile jsonWs
            match r3 with
            | ',' :: r4 => parseJMembers fuel r4 (acc ++ [(String.mk k, v)])
            | '\x7d' :: r4 => some (.obj (buildObj (acc ++ [(String.mk k, v)])), r4)
            | _ => none
        | _ => none
    | _ => none

end

/-- `JSON.parse(text)`: one value and only trailing whitespace after it. -/
def jsonParse (s : String) : Option Json :=
  match parseJVal (s.length + 1) s.toList with
  | none => none
  | some (v, r) => if r.dropWhile jsonWs = [] then some v else none

/-! ## The schema validator (`validateDataItem` in `validate.ts`) -/

/-- `{ valid: true } | { valid: false, error }`. -/
inductive ValidationResult where
  | ok : ValidationResult
  | fail : String → ValidationResult
deriving Repr, DecidableEq

/-- The accept/reject verdict of a result. -/
def ValidationResult.isOkB : ValidationResult → Bool
  | .ok => true
  | .fail _ => false

/-- `SHA256_HEX`: exactly 64 lowercase hex characters. -/
def isSha256Hex (s : String) : Bool :=
  s.toList.length = 64 &&
    s.toList.all fun c => ('0' ≤ c && c ≤ '9') || ('a' ≤ c && c ≤ 'f')

/-- Case-insensitive hex character. -/
def isHexAny (c : Char) : Bool :=
  ('0' ≤ c && c ≤ '9') || ('a' ≤ c && c ≤ 'f') || ('A' ≤ c && c ≤ 'F')

/-- `UUID`: 8-4-4-4-12 hex with case-insensitive letters. -/
def isUuid (s : String) : Bool :=
  let l := s.toList
  l.length = 36 &&
    (List.range 36).all fun i =>
      if i = 8 ∨ i = 13 ∨ i = 18 ∨ i = 23 then l.getD i ' ' = '-'
      else isHexAny (l.getD i ' ')

/-- `NON_NEGATIVE_INT`: `0` or a positive integer with no leading zero. -/
def isNonNegInt (s : String) : Bool :=
  match s.toList with
  | [] => false
  | c :: rest =>
    if c = '0' then rest.isEmpty
    else ('1' ≤ c && c ≤ '9') && rest.all isDigitCh

/-- Consume exactly `n` digits. -/
def eatDigits : Nat → List Char → Option (List Char)
  | 0, l => some l
  | n + 1, c :: l => if isDigitCh c then eatDigits n l else none
  | _ + 1, [] => none

/-- Consume one expected character. -/
def eatCh (c : Char) : List Char → Option (List Char)
  | d :: l => if d = c then some l else none
  | [] => none

/-- `ISO8601`: `YYYY-MM-DDThh:mm:ss(.d+)?(Z|±hh:mm)`. -/
def isIso8601 (s : String) : Bool :=
  let date? := (eatDigits 4 s.toList).bind (eatCh '-') |>.bind (eatDigits 2)
    |>.bind (eatCh '-') |>.bind (eatDigits 2) |>.bind (eatCh 'T')
    |>.bind (eatDigits 2) |>.bind (eatCh ':') |>.bind (eatDigits 2)
    |>.bind (eatCh ':') |>.bind (eatDigits 2)
  match date? with
  | none => false
  | some rest =>
    let rest := match rest with
      | '.' :: d :: r =>
        if isDigitCh d then (d :: r).dropWhile isDigitCh else rest
      | _ => rest
    match rest with
    | ['Z'] => true
    | sgn :: r =>
      (sgn = '+' || sgn = '-') &&
        (((eatDigits 2 r).bind (eatCh ':') |>.bind (eatDigits 2)) = some [])
    | [] => false

/-- `DATE_UTC`: `YYYY-MM-DD`. -/
def isDateUtc (s : String) : Bool :=
  ((eatDigits 4 s.toList).bind (eatCh '-') |>.bind (eatDigits 2)
    |>.bind (eatCh '-') |>.bind (eatDigits 2)) = some []

/-- `SEMVER`: digits and dots only, `MAJOR.MINOR.PATCH`. -/
def isSemver (s : String) : Bool :=
  match s.toList.span isDigitCh with
  | (d1, '.' :: r1) =>
    d1 ≠ [] &&
      (match r1.span isDigitCh with
       | (d2, '.' :: r2) => d2 ≠ [] && r2 ≠ [] && r2.all isDigitCh
       | _ => false)
  | _ => false

/-- Digits to a number. -/
def natOfDigits (l : List Char) : Nat :=
  l.foldl (fun acc c => acc * 10 + (c.toNat - 48)) 0

/-- `parseSemver`: prefix match of `(\d+)\.(\d+)\.(\d+)`. -/
def parseSemver (s : String) : Option (Nat × Nat × Nat) :=
  match s.toList.span isDigitCh with
  | (d1, '.' :: r1) =>
    if d1 = [] then none
    else
      match r1.span isDigitCh with
      | (d2, '.' :: r2) =>
        if d2 = [] then none
        else
          match r2.span isDigitCh with
          | (d3, _) =>
            if d3 = [] then none
            else some (natOfDigits d1, natOfDigits d2, natOfDigits d3)
      | _ => none
  | _ => none

/-- `MIN_SDK_VERSION`. -/
def minSdkVersion : Nat × Nat × Nat := (0, 2, 0)

/-- `semverGte`: component-wise lexicographic `≥`. -/
def semverGte (a b : Nat × Nat × Nat) : Bool :=
  if a.1 > b.1 then true
  else if a.1 < b.1 then false
  else if a.2.1 > b.2.1 then true
  else if a.2.1 < b.2.1 then false
  else if a.2.2 > b.2.2 then true
  else if a.2.2 < b.2.2 then false
  else true

/-- The `Map`-building loop with its duplicate check: first duplicate
name aborts, otherwise insertion order is kept. -/
def buildTagMap : List Tag → List (String × String) → Except String (List (String × String))
  | [], acc => .ok acc
  | t :: ts, acc =>
    if (acc.find? fun p => p.1 = t.name).isSome then .error t.name
    else buildTagMap ts (acc ++ [(t.name, t.value)])

/-- `tagMap.get(name)`. -/
def mget (m : List (String × String)) (n : String) : Option String :=
  (m.find? fun p => p.1 = n).map (·.2)

/-- Render `string | undefined` into a template literal. -/
def optStr : Option String → String
  | none => "undefined"
  | some s => s

/-- `if (!x || !test(x)) return fail(msg)` for a tag value: `undefined`
and the empty string are falsy, then the regex runs. -/
def reqTag (v? : Option String) (test : String → Bool) (msg : String)
    (k : String → ValidationResult) : ValidationResult :=
  match v? with
  | none => .fail msg
  | some v => if v = "" ∨ ¬ test v then .fail msg else k v

/-- `typeof x !== "string" || !test(x)` for a body field. -/
def reqBodyStr (v? : Option Json) (test : String → Bool) (msg : String)
    (k : String → ValidationResult) : ValidationResult :=
  match v? with
  | some (.str v) => if ¬ test v then .fail msg else k v
  | _ => .fail msg

/-- The body and cross-field checks (everything after the tag-format
checks in `validateDataItem`). -/
def validateBody (hashTag nsTag naTag svTag : String) (rawData : List Nat) : ValidationResult :=
  match jsonParse (utf8Str rawData) with
  | none => .fail "Data payload is not valid JSON"
  | some json =>
    match json with
    | .obj kvs =>
      if kvs.length ≠ 5 then
        .fail s!"Expected exactly 5 fields in body, got {kvs.length}"
      else
        reqBodyStr (jlookup kvs "hash") isSha256Hex
          "Invalid or missing body field \"hash\": must be 64 lowercase hex chars" fun hash =>
        reqBodyStr (jlookup kvs "namespace") isSha256Hex
          "Invalid or missing body field \"namespace\": must be a SHA-256 hash (64 lowercase hex chars)" fun nsBody =>
        reqBodyStr (jlookup kvs "notarized_at") isIso8601
          "Invalid or missing body field \"notarized_at\": must be ISO-8601 with timezone" fun notarizedAt =>
        reqBodyStr (jlookup kvs "sdk_version") isSemver
          "Invalid or missing body field \"sdk_version\": must be valid semver" fun sdkVersion =>
        reqBodyStr (jlookup kvs "v") (fun v => v = "1")
          "Invalid or missing body field \"v\": must be \"1\"" fun _ =>
        if hashTag ≠ hash then
          .fail s!"Hash tag (\"{hashTag}\") does not match body hash (\"{hash}\")"
        else if nsTag ≠ nsBody then
          .fail s!"Namespace tag (\"{nsTag}\") does not match body namespace (\"{nsBody}\")"
        else if naTag ≠ notarizedAt then
          .fail s!"Notarized-At tag (\"{naTag}\") does not match body notarized_at (\"{notarizedAt}\")"
        else if svTag ≠ sdkVersion then
          .fail s!"SDK-Version tag (\"{svTag}\") does not match body sdk_version (\"{sdkVersion}\")"
        else .ok
    | _ => .fail "Data payload must be a JSON object"

/-- The per-tag checks, given the built tag map. -/
def validateTags (m : List (String × String)) (rawData : List Nat) : ValidationResult :=
  let appName := optStr (mget m "App-Name")
  let contentType := optStr (mget m "Content-Type")
  if mget m "App-Name" ≠ some "agentsystems-notary" then
    .fail s!"Invalid or missing App-Name tag: expected \"agentsystems-notary\", got \"{appName}\""
  else if mget m "Content-Type" ≠ some "application/json" then
    .fail s!"Invalid or missing Content-Type tag: expected \"application/json\", got \"{contentType}\""
  else
    reqTag (mget m "Hash") isSha256Hex
      "Invalid or missing Hash tag: must be 64 lowercase hex chars" fun hashTag =>
    reqTag (mget m "Namespace") isSha256Hex
      "Invalid or missing Namespace tag: must be a SHA-256 hash (64 lowercase hex chars)" fun nsTag =>
    reqTag (mget m "Session-ID") isUuid
      "Invalid or missing Session-ID tag: must be a valid UUID" fun _ =>
    reqTag (mget m "Sequence") isNonNegInt
      "Invalid or missing Sequence tag: must be a non-negative integer" fun _ =>
    reqTag (mget m "Notarized-At") isIso8601
      "Invalid or missing Notarized-At tag: must be ISO-8601 with timezone" fun naTag =>
    reqTag (mget m "Notarized-Date-UTC") isDateUtc
      "Invalid or missing Notarized-Date-UTC tag: must be YYYY-MM-DD" fun ndTag =>
    reqTag (mget m "SDK-Version") isSemver
      "Invalid or missing SDK-Version tag: must be valid semver" fun svTag =>
    (match parseSemver svTag with
     | none => .fail s!"SDK-Version {svTag} is below minimum 0.2.0"
     | some ver =>
       if ¬ semverGte ver minSdkVersion then
         .fail s!"SDK-Version {svTag} is below minimum 0.2.0"
       else
         let dateFromTimestamp := String.mk (naTag.toList.take 10)
         if ndTag ≠ dateFromTimestamp then
           .fail s!"Notarized-Date-UTC ({ndTag}) does not match date in Notarized-At ({dateFromTimestamp})"
         else validateBody hashTag nsTag naTag svTag rawData)

/-- `validateDataItem(signatureType, tags, rawData, totalSize, target, anchor)`. -/
def validateDataItem (signatureType : Nat) (tags : List Tag) (rawData : List Nat)
    (totalSize : Nat) (target anchor : Option String) : ValidationResult :=
  if totalSize > 12288 then
    .fail "DataItem exceeds maximum size of 12288 bytes"
  else if signatureType ≠ 1 then
    .fail s!"Invalid signature type: {signatureType}, expected 1 (Arweave RSA-4096)"
  else if target.isSome then
    .fail "DataItem must not have a target field"
  else if anchor.isSome then
    .fail "DataItem must not have an anchor field"
  else if tags.length ≠ 9 then
    .fail s!"Expected exactly 9 tags, got {tags.length}"
  else
    match buildTagMap tags [] with
    | .error n => .fail s!"Duplicate tag: {n}"
    | .ok m => validateTags m rawData

/-! ## The bundle assembler (`assemble-bundle.ts`) -/

/-- The byte-writing loop of `longTo32ByteArray`: up to 8 low bytes,
stopping early once the remaining value is zero. -/
def longTo32Loop : Nat → Nat → List Nat
  | 0, _ => []
  | _ + 1, 0 => []
  | i + 1, long => long % 256 :: longTo32Loop i (long / 256)

/-- `longTo32ByteArray(long)`: a 32-byte buffer whose low bytes hold the
value little-endian, the rest zero. -/
def longTo32ByteArray (long : Nat) : List Nat :=
  let w := longTo32Loop 8 long
  w ++ List.replicate (32 - w.length) 0

/-- `assembleBundle(dataItems)`: the 32-byte count, then per item a
32-byte size and the raw SHA-256 of bytes `[2, 514)`, then the items. -/
def assembleBundle (dataItems : List (List Nat)) : List Nat :=
  let headerBuffers :=
    [longTo32ByteArray dataItems.length] ++
      dataItems.flatMap fun item => [longTo32ByteArray item.length, sha256 (sub item 2 514)]
  (headerBuffers ++ dataItems).flatten

/-! ## Concrete inputs used by the witnesses and counterexamples -/

/-- 7-bit groups of a varint (fuel 64 covers any 64-bit value). -/
def varintGroups : Nat → Nat → List Nat
  | 0, _ => []
  | f + 1, m => if m < 128 then [m] else (m % 128 + 128) :: varintGroups f (m / 128)

/-- Zig-zag varint encoding of a nonnegative value. -/
def varintEnc (n : Nat) : List Nat := varintGroups 64 (2 * n)

/-- Avro encoding of one tag (ASCII names and values). -/
def encTag (t : Tag) : List Nat :=
  varintEnc (asciiBytes t.name).length ++ asciiBytes t.name ++
    varintEnc (asciiBytes t.value).length ++ asciiBytes t.value

/-- Avro encoding of a tag list as a single block without a trailing
end marker (the decoder stops at the end of the region). -/
def encTags (ts : List Tag) : List Nat :=
  varintEnc ts.length ++ ts.flatMap encTag

/-- 64 `a` characters: a well-formed lowercase hex SHA-256 value. -/
def hex64a : String := String.mk (List.replicate 64 'a')

/-- 64 `b` characters. -/
def hex64b : String := String.mk (List.replicate 64 'b')

/-- The nine schema tags, all valid, with `SDK-Version` 0.2.0. -/
def tagsValid : List Tag :=
  [⟨"App-Name", "agentsystems-notary"⟩,
   ⟨"Content-Type", "application/json"⟩,
   ⟨"Hash", hex64a⟩,
   ⟨"Namespace", hex64b⟩,
   ⟨"Session-ID", "12345678-1234-1234-1234-123456789abc"⟩,
   ⟨"Sequence", "0"⟩,
   ⟨"Notarized-At", "2024-06-01T12:34:56Z"⟩,
   ⟨"Notarized-Date-UTC", "2024-06-01"⟩,
   ⟨"SDK-Version", "0.2.0"⟩]

/-- The same tags with `SDK-Version` 0.1.9 (tag and body). -/
def tags019 : List Tag :=
  (tagsValid.take 8) ++ [⟨"SDK-Version", "0.1.9"⟩]

/-- A matching JSON body. -/
def bodyStrOf (sdk : String) : String :=
  "\x7b\"hash\":\"" ++ hex64a ++ "\",\"namespace\":\"" ++ hex64b ++
    "\",\"notarized_at\":\"2024-06-01T12:34:56Z\",\"sdk_version\":\"" ++ sdk ++
    "\",\"v\":\"1\"\x7d"

/-- The body bytes for SDK 0.2.0. -/
def bodyValid : List Nat := asciiBytes (bodyStrOf "0.2.0")

/-- A minimal DataItem blob: type 1, zero signature, owner of ones,
no target, no anchor, no tags, no data (1044 bytes). -/
def blob1044 : List Nat :=
  [1, 0] ++ List.replicate 512 0 ++ List.replicate 512 1 ++
    [0, 0] ++ List.replicate 16 0

/-- The parse of `blob1044`. -/
def item1044 : ParsedDataItem :=
  match parseDataItem blob1044 with
  | .ok r => r
  | .error _ => default

/-- `blob1044` with the target-present flag byte set to 2. -/
def blobFlag2 : List Nat :=
  [1, 0] ++ List.replicate 512 0 ++ List.replicate 512 1 ++
    [2, 0] ++ List.replicate 16 0

/-- The parse of `blobFlag2`. -/
def itemFlag2 : ParsedDataItem :=
  match parseDataItem blobFlag2 with
  | .ok r => r
  | .error _ => default

/-- A full DataItem blob carrying the valid nine tags and matching body,
with the anchor-present flag set to 1 and an all-NUL anchor. -/
def blobNulAnchor : List Nat :=
  [1, 0] ++ List.replicate 512 0 ++ List.replicate 512 1 ++
    [0] ++ [1] ++ List.replicate 32 0 ++
    le64spec 9 ++ le64spec (encTags tagsValid).length ++
    encTags tagsValid ++ bodyValid

/-- The parse of `blobNulAnchor`. -/
def itemNulAnchor : ParsedDataItem :=
  match parseDataItem blobNulAnchor with
  | .ok r => r
  | .error _ => default

-- scratch checks

/-! ## Helper lemmas -/

/-- Decidable equality of `Except` results (for concrete evaluations). -/
instance {ε α : Type} [DecidableEq ε] [DecidableEq α] : DecidableEq (Except ε α) := fun a b =>
  match a, b with
  | .ok x, .ok y => if h : x = y then .isTrue (by rw [h]) else .isFalse (by simp [h])
  | .error x, .error y => if h : x = y then .isTrue (by rw [h]) else .isFalse (by simp [h])
  | .ok _, .error _ => .isFalse (by simp)
  | .error _, .ok _ => .isFalse (by simp)

/-- Valid code point: `Char.ofNat` keeps the value. -/
theorem charOfNat_toNat {n : Nat} (h : n.isValidChar) : (Char.ofNat n).toNat = n := by
  simp [Char.ofNat, h, Char.ofNatAux, Char.toNat, UInt32.toNat, BitVec.toNat_ofNat]

/-- The loop writes at most `k` bytes. -/
theorem longTo32Loop_length (k : Nat) : ∀ n, (longTo32Loop k n).length ≤ k := by
  induction k with
  | zero => intro n; simp [longTo32Loop]
  | succ k ih =>
    intro n
    match n with
    | 0 => simp [longTo32Loop]
    | m + 1 =>
      have h : longTo32Loop (k + 1) (m + 1) = (m + 1) % 256 :: longTo32Loop k ((m + 1) / 256) :=
        rfl
      rw [h]
      simpa using Nat.succ_le_succ (ih ((m + 1) / 256))

/-- The byte loop together with its zero padding writes the `k` low
little-endian bytes. -/
theorem longTo32Loop_spec (k : Nat) : ∀ n : Nat,
    longTo32Loop k n ++ List.replicate (k - (longTo32Loop k n).length) 0 =
      (List.range k).map fun i => n / 256 ^ i % 256 := by
  induction k with
  | zero => intro n; simp [longTo32Loop]
  | succ k ih =>
    intro n
    match n with
    | 0 =>
      simp only [longTo32Loop, List.nil_append, List.length_nil, Nat.sub_zero]
      symm
      apply List.eq_replicate_iff.mpr
      refine ⟨by simp, ?_⟩
      intro x hx
      obtain ⟨i, _, rfl⟩ := List.mem_map.mp hx
      simp
    | m + 1 =>
      have h : longTo32Loop (k + 1) (m + 1) = (m + 1) % 256 :: longTo32Loop k ((m + 1) / 256) :=
        rfl
      rw [h, List.range_succ_eq_map]
      simp only [List.length_cons, List.map_cons, List.map_map, List.cons_append,
        pow_zero, Nat.div_one, Nat.succ_sub_succ]
      congr 1
      rw [ih ((m + 1) / 256)]
      apply List.map_congr_left
      intro i _
      simp [Nat.div_div_eq_div_mul, pow_succ, Nat.mul_comm]

/-- `longTo32ByteArray` is the 8 low little-endian bytes then 24 zeros. -/
theorem longTo32ByteArray_eq (n : Nat) :
    longTo32ByteArray n = le64spec n ++ List.replicate 24 0 := by
  show longTo32Loop 8 n ++ List.replicate (32 - (longTo32Loop 8 n).length) 0 = _
  have hlen := longTo32Loop_length 8 n
  have hsplit : 32 - (longTo32Loop 8 n).length =
      (8 - (longTo32Loop 8 n).length) + 24 := by omega
  rw [hsplit, List.replicate_add, ← List.append_assoc, longTo32Loop_spec 8 n]
  rfl

/-- A big-endian encoding has the requested length. -/
theorem beBytes_length (k n : Nat) : (beBytes k n).length = k := by
  simp [beBytes]

/-- SHA-256 digests are 32 bytes, whatever the input. -/
theorem sha256_length (l : List Nat) : (sha256 l).length = 32 := by
  simp [sha256, wordToBytes, beBytes_length]

/-- SHA-384 digests are 48 bytes, whatever the input. -/
theorem sha384_length (l : List Nat) : (sha384 l).length = 48 := by
  simp [sha384, wordToBytes, beBytes_length]

/-- The per-item index entries, flattened. -/
theorem assemble_index_flatten (L : List (List Nat)) :
    (L.flatMap fun item => [longTo32ByteArray item.length, sha256 (sub item 2 514)]).flatten =
      L.flatMap fun b =>
        (le64spec b.length ++ List.replicate 24 0) ++ sha256 ((b.drop 2).take 512) := by
  induction L with
  | nil => simp
  | cons b L ih =>
    simp only [List.flatMap_cons, List.flatten_append, ih]
    simp [longTo32ByteArray_eq, sub, List.drop_take]

/-- The 8-byte little-endian field has length 8. -/
theorem le64spec_length (n : Nat) : (le64spec n).length = 8 := by simp [le64spec]

/-- Each index entry is 64 bytes. -/
theorem assemble_index_length (L : List (List Nat)) :
    (L.flatMap fun b =>
      (le64spec b.length ++ List.replicate 24 0) ++ sha256 ((b.drop 2).take 512)).length =
      64 * L.length := by
  induction L with
  | nil => simp
  | cons b L ih =>
    simp only [List.flatMap_cons, List.length_append, ih, List.length_cons,
      le64spec_length, sha256_length, List.length_replicate]
    omega

/-- C1: the assembler output is exactly the 32-byte little-endian count,
then per item a 32-byte little-endian size and the raw 32-byte SHA-256 of
bytes `[2, 514)`, then the blobs verbatim in order; its length is
`32 + 64·N + Σ|Bᵢ|`. -/
theorem assembleBundle_framing (L : List (List Nat)) (_h : ∀ b ∈ L, 514 ≤ b.length) :
    assembleBundle L =
      (le64spec L.length ++ List.replicate 24 0) ++
        ((L.flatMap fun b =>
          (le64spec b.length ++ List.replicate 24 0) ++ sha256 ((b.drop 2).take 512)) ++
          L.flatten) ∧
    (assembleBundle L).length = 32 + 64 * L.length + (L.map List.length).sum := by
  have hstruct : assembleBundle L =
      (le64spec L.length ++ List.replicate 24 0) ++
        ((L.flatMap fun b =>
          (le64spec b.length ++ List.replicate 24 0) ++ sha256 ((b.drop 2).take 512)) ++
          L.flatten) := by
    unfold assembleBundle
    simp only [List.flatten_append, List.flatten_cons, List.flatten_nil, List.append_nil,
      List.cons_append, List.nil_append]
    rw [longTo32ByteArray_eq, assemble_index_flatten]
  refine ⟨hstruct, ?_⟩
  rw [hstruct]
  have hflat : (L.flatten).length = (L.map List.length).sum := by
    simp [List.length_flatten]
  simp only [List.length_append, assemble_index_length, hflat, le64spec_length,
    List.length_replicate]
  ring

set_option maxRecDepth 100000 in
/-- C1 witness: a single 514-byte blob. -/
theorem assembleBundle_framing_witness :
    (∀ b ∈ [List.replicate 514 7], 514 ≤ b.length) ∧
      (assembleBundle [List.replicate 514 7] =
        (le64spec ([List.replicate 514 7]).length ++ List.replicate 24 0) ++
          ((([List.replicate 514 7]).flatMap fun b =>
            (le64spec b.length ++ List.replicate 24 0) ++ sha256 ((b.drop 2).take 512)) ++
            ([List.replicate 514 7]).flatten) ∧
        (assembleBundle [List.replicate 514 7]).length =
          32 + 64 * ([List.replicate 514 7]).length +
            (([List.replicate 514 7]).map List.length).sum) :=
  ⟨by decide, assembleBundle_framing [List.replicate 514 7] (by decide)⟩

/-! ## C2: the signed message is the specified deep hash -/

/-- The claim's blob leaf: `H(H("blob" ‖ len_ascii) ‖ H(bytes))`, `H = SHA-384`. -/
def specBlobHash (b : List Nat) : List Nat :=
  sha384 (sha384 (asciiBytes "blob" ++ decAscii b.length) ++ sha384 b)

/-- The claim's list node over byte-string children: seed
`H("list" ‖ N_ascii)`, then fold `acc ↦ H(acc ‖ deephash(child))`. -/
def specListHash (bs : List (List Nat)) : List Nat :=
  bs.foldl (fun acc b => sha384 (acc ++ specBlobHash b))
    (sha384 (asciiBytes "list" ++ decAscii bs.length))

/-- The source's fold over blob children is the claim's fold. -/
theorem deepHashFold_blobs (bs : List (List Nat)) :
    ∀ acc, deepHashFold (bs.map DeepHashChunk.blob) acc =
      bs.foldl (fun acc b => sha384 (acc ++ specBlobHash b)) acc := by
  induction bs with
  | nil => intro acc; simp [deepHashFold]
  | cons b bs ih =>
    intro acc
    simp only [List.map_cons, deepHashFold, List.foldl_cons, ih]
    rfl

/-- Inversion of a successful parse: every field of the result in terms
of the wire bytes. -/
theorem parseDataItem_ok_inv {b : List Nat} {r : ParsedDataItem}
    (h : parseDataItem b = .ok r) :
    r.id = base64url (sha256 (sub b 2 514)) ∧
    r.signatureType = readUInt16LE b 0 ∧
    r.owner = base64url (sub b 514 1026) ∧
    r.target = (targetRawOf b).map base64url ∧
    r.anchor = ((anchorRawOf b).bind fun a =>
      let s := trimNulTail (utf8Dec a)
      if s = [] then none else some (String.mk s)) ∧
    r.rawData = dataOf b ∧
    r.sigRaw = sub b 2 514 ∧
    r.ownerRaw = sub b 514 1026 ∧
    r.targetRaw = targetRawOf b ∧
    r.anchorRaw = anchorRawOf b ∧
    r.tagBytesRaw = tagRegionOf b := by
  unfold parseDataItem at h
  split at h
  · exact absurd h (by simp)
  split at h
  · exact absurd h (by simp)
  split at h
  · exact absurd h (by simp)
  split at h
  · exact absurd h (by simp)
  split at h
  · exact absurd h (by simp)
  split at h
  · exact absurd h (by simp)
  injection h with h
  subst h
  exact ⟨rfl, rfl, rfl, rfl, rfl, rfl, rfl, rfl, rfl, rfl, rfl⟩

/-- The message construction of `verifyDataItem` equals the claim's
deep-hash formula for the 8-element list. -/
theorem dataItemSignatureData_spec (o tb d : List Nat) (t a : Option (List Nat)) :
    dataItemSignatureData o t a tb d =
      specListHash [asciiBytes "dataitem", asciiBytes "1", asciiBytes "1", o,
        t.getD [], a.getD [], tb, d] := by
  unfold dataItemSignatureData specListHash
  rw [show ([DeepHashChunk.blob (asciiBytes "dataitem"), .blob (asciiBytes "1"),
      .blob (asciiBytes "1"), .blob o, .blob (t.getD []), .blob (a.getD []),
      .blob tb, .blob d]) =
      ([asciiBytes "dataitem", asciiBytes "1", asciiBytes "1", o,
        t.getD [], a.getD [], tb, d]).map DeepHashChunk.blob from rfl]
  rw [deepHash, deepHashFold_blobs]
  simp

/-- C2: for every decoded DataItem, the message handed to the RSA-PSS
verifier is the deep hash of the ordered 8-element list
`["dataitem", "1", "1", owner, target_or_empty, anchor_or_empty,
tag_bytes, data]` under the claimed blob/list recursion, where the
optional fields are empty exactly when their flag byte is not 1 and
`tag_bytes` is the raw on-wire Avro region. -/
theorem deepHash_message_spec (b : List Nat) (r : ParsedDataItem)
    (h : parseDataItem b = .ok r) :
    dataItemSignatureData r.ownerRaw r.targetRaw r.anchorRaw r.tagBytesRaw r.rawData =
      specListHash [asciiBytes "dataitem", asciiBytes "1", asciiBytes "1", r.ownerRaw,
        r.targetRaw.getD [], r.anchorRaw.getD [], r.tagBytesRaw, r.rawData] ∧
    r.ownerRaw = sub b 514 1026 ∧
    r.targetRaw = targetRawOf b ∧
    r.anchorRaw = anchorRawOf b ∧
    r.tagBytesRaw = tagRegionOf b ∧
    r.rawData = dataOf b := by
  obtain ⟨-, -, -, -, -, h6, -, h8, h9, h10, h11⟩ := parseDataItem_ok_inv h
  exact ⟨dataItemSignatureData_spec _ _ _ _ _, h8, h9, h10, h11, h6⟩

set_option maxRecDepth 1000000 in
set_option maxHeartbeats 2000000 in
/-- C2 witness: the minimal 1044-byte blob. -/
theorem deepHash_message_spec_witness :
    parseDataItem blob1044 = .ok item1044 ∧
    (dataItemSignatureData item1044.ownerRaw item1044.targetRaw item1044.anchorRaw
        item1044.tagBytesRaw item1044.rawData =
      specListHash [asciiBytes "dataitem", asciiBytes "1", asciiBytes "1", item1044.ownerRaw,
        item1044.targetRaw.getD [], item1044.anchorRaw.getD [], item1044.tagBytesRaw,
        item1044.rawData] ∧
    item1044.ownerRaw = sub blob1044 514 1026 ∧
    item1044.targetRaw = targetRawOf blob1044 ∧
    item1044.anchorRaw = anchorRawOf blob1044 ∧
    item1044.tagBytesRaw = tagRegionOf blob1044 ∧
    item1044.rawData = dataOf blob1044) := by
  have hp : parseDataItem blob1044 = .ok item1044 := by decide
  exact ⟨hp, deepHash_message_spec blob1044 item1044 hp⟩

set_option maxRecDepth 1000000 in
/-- Known-answer sanity check: `sha256("abc")` (FIPS 180-4 vector). -/
theorem sha256_abc :
    sha256 [97, 98, 99] =
      [0xba, 0x78, 0x16, 0xbf, 0x8f, 0x01, 0xcf, 0xea, 0x41, 0x41, 0x40, 0xde,
       0x5d, 0xae, 0x22, 0x23, 0xb0, 0x03, 0x61, 0xa3, 0x96, 0x17, 0x7a, 0x9c,
       0xb4, 0x10, 0xff, 0x61, 0xf2, 0x00, 0x15, 0xad] := by decide

set_option maxRecDepth 1000000 in
/-- Known-answer sanity check: `sha384("abc")` (FIPS 180-4 vector). -/
theorem sha384_abc :
    sha384 [97, 98, 99] =
      [0xcb, 0x00, 0x75, 0x3f, 0x45, 0xa3, 0x5e, 0x8b, 0xb5, 0xa0, 0x3d, 0x69,
       0x9a, 0xc6, 0x50, 0x07, 0x27, 0x2c, 0x32, 0xab, 0x0e, 0xde, 0xd1, 0x63,
       0x1a, 0x8b, 0x60, 0x5a, 0x43, 0xff, 0x5b, 0xed, 0x80, 0x86, 0x07, 0x2b,
       0xa1, 0xe7, 0xcc, 0x23, 0x58, 0xba, 0xec, 0xa1, 0x34, 0xc8, 0x25, 0xa7] := by decide

/-! ## C4: the identifier is the hash of the signature slice -/

/-- `sub` as a drop-then-take slice. -/
theorem sub_eq_drop_take (l : List Nat) (s e : Nat) :
    sub l s e = (l.drop s).take (e - s) := by
  simp [sub, List.drop_take]

/-- C4: a successful parse returns
`base64url(SHA-256(bytes [2, 514)))` as the identifier, and the
identifier depends on no bytes outside that range. -/
theorem parse_identifier_spec (b b' : List Nat) (r r' : ParsedDataItem)
    (h : parseDataItem b = .ok r) (h' : parseDataItem b' = .ok r')
    (hs : (b.drop 2).take 512 = (b'.drop 2).take 512) :
    r.id = base64url (sha256 ((b.drop 2).take 512)) ∧ r.id = r'.id := by
  have h1 := (parseDataItem_ok_inv h).1
  have h2 := (parseDataItem_ok_inv h').1
  have e1 : sub b 2 514 = (b.drop 2).take 512 := sub_eq_drop_take b 2 514
  have e2 : sub b' 2 514 = (b'.drop 2).take 512 := sub_eq_drop_take b' 2 514
  refine ⟨by rw [h1, e1], ?_⟩
  rw [h1, h2, e1, e2, hs]

set_option maxRecDepth 1000000 in
set_option maxHeartbeats 2000000 in
/-- C4 witness: two different blobs with the same signature bytes. -/
theorem parse_identifier_spec_witness :
    parseDataItem blob1044 = .ok item1044 ∧ parseDataItem blobFlag2 = .ok itemFlag2 ∧
    (blob1044.drop 2).take 512 = (blobFlag2.drop 2).take 512 ∧
    (item1044.id = base64url (sha256 ((blob1044.drop 2).take 512)) ∧
      item1044.id = itemFlag2.id) := by
  have hp : parseDataItem blob1044 = .ok item1044 := by decide
  have hp' : parseDataItem blobFlag2 = .ok itemFlag2 := by decide
  have hs : (blob1044.drop 2).take 512 = (blobFlag2.drop 2).take 512 := by decide
  exact ⟨hp, hp', hs, parse_identifier_spec blob1044 blobFlag2 item1044 itemFlag2 hp hp' hs⟩

/-! ## C7: flag bytes other than 0 or 1 are treated as 0, not rejected -/

/-- A `set` outside a slice leaves the slice unchanged. -/
theorem sub_set_outside {l : List Nat} {i s e : Nat} (x : Nat) (hi : i < s ∨ e ≤ i) :
    sub (l.set i x) s e = sub l s e := by
  apply List.ext_getElem?
  intro k
  simp only [sub, List.getElem?_drop, List.getElem?_take]
  split
  · exact List.getElem?_set_ne (by omega)
  · rfl

/-- A `set` before the dropped prefix leaves the suffix unchanged. -/
theorem drop_set_outside {l : List Nat} {i n : Nat} (x : Nat) (hi : i < n) :
    (l.set i x).drop n = l.drop n := by
  apply List.ext_getElem?
  intro k
  simp only [List.getElem?_drop]
  exact List.getElem?_set_ne (by omega)

/-- A `set` before the read window leaves the 64-bit read unchanged. -/
theorem readU64LE_set {l : List Nat} {i off : Nat} (x : Nat) (h : i < off) :
    readU64LE (l.set i x) off = readU64LE l off := by
  unfold readU64LE
  rw [sub_set_outside x (Or.inl h)]

/-- Setting byte 1026 leaves the 16-bit type field unchanged. -/
theorem readUInt16LE_set_1026 (l : List Nat) (x : Nat) :
    readUInt16LE (l.set 1026 x) 0 = readUInt16LE l 0 := by
  simp only [readUInt16LE, List.getD_eq_getElem?_getD]
  rw [List.getElem?_set_ne (by decide), List.getElem?_set_ne (by decide)]

/-- C7 (amended): a target or anchor flag byte other than 1 never causes
a decode failure — the field is simply absent, and overwriting such a
target flag with 0 (or any other non-1 value) leaves the parse result
unchanged byte-for-byte. -/
theorem parse_flag_not_one_spec :
    (∀ (b : List Nat) (v : Nat) (r : ParsedDataItem), targetFlagAt b = some v → v ≠ 1 →
      parseDataItem b = .ok r → r.targetRaw = none ∧ r.target = none) ∧
    (∀ (b : List Nat) (v x : Nat), targetFlagAt b = some v → v ≠ 1 → x ≠ 1 →
      parseDataItem (b.set 1026 x) = parseDataItem b) ∧
    (∀ (b : List Nat) (v : Nat) (r : ParsedDataItem), anchorFlagAt b = some v → v ≠ 1 →
      parseDataItem b = .ok r → r.anchorRaw = none ∧ r.anchor = none) := by
  refine ⟨?_, ?_, ?_⟩
  · intro b v r hf hv h
    obtain ⟨-, -, -, h4, -, -, -, -, h9, -, -⟩ := parseDataItem_ok_inv h
    have ht : targetRawOf b = none := by
      simp [targetRawOf, hf, Option.some.injEq, hv]
    exact ⟨h9.trans ht, by rw [h4, ht]; rfl⟩
  · intro b v x hf hv hx
    have hlt : 1026 < b.length := (List.getElem?_eq_some.mp hf).1
    have hlen : (b.set 1026 x).length = b.length := List.length_set b 1026 x
    have h16 : readUInt16LE (b.set 1026 x) 0 = readUInt16LE b 0 :=
      readUInt16LE_set_1026 b x
    have htf : targetFlagAt (b.set 1026 x) = some x := by
      simpa [targetFlagAt] using List.getElem?_set_eq_of_lt x (l := b) (by simpa using hlt)
    have htr : targetRawOf (b.set 1026 x) = targetRawOf b := by
      simp [targetRawOf, htf, hf, Option.some.injEq, hx, hv]
    have hafo : anchorFlagOff (b.set 1026 x) = 1027 := by
      simp [anchorFlagOff, htf, Option.some.injEq, hx]
    have hafo' : anchorFlagOff b = 1027 := by
      simp [anchorFlagOff, hf, Option.some.injEq, hv]
    have haf : anchorFlagAt (b.set 1026 x) = anchorFlagAt b := by
      rw [anchorFlagAt, anchorFlagAt, hafo, hafo']
      exact List.getElem?_set_ne (by decide)
    have har : anchorRawOf (b.set 1026 x) = anchorRawOf b := by
      unfold anchorRawOf
      rw [haf, hafo, hafo']
      split
      · rw [sub_set_outside x (Or.inl (by omega))]
      · rfl
    have hco : tagCountOff (b.set 1026 x) = tagCountOff b := by
      unfold tagCountOff
      rw [haf, hafo, hafo']
    have hco' : 1028 ≤ tagCountOff b := by
      unfold tagCountOff
      rw [hafo']
      split <;> omega
    have hcount : tagCountOf (b.set 1026 x) = tagCountOf b := by
      unfold tagCountOf
      rw [hco, readU64LE_set x (by omega)]
    have hblen : tagBytesLenOf (b.set 1026 x) = tagBytesLenOf b := by
      unfold tagBytesLenOf
      rw [hco, readU64LE_set x (by omega)]
    have hts : tagsStart (b.set 1026 x) = tagsStart b := by
      unfold tagsStart
      rw [hco]
    have hts' : 1044 ≤ tagsStart b := by
      unfold tagsStart
      omega
    have hregion : tagRegionOf (b.set 1026 x) = tagRegionOf b := by
      unfold tagRegionOf
      rw [hts, hblen, sub_set_outside x (Or.inl (by omega))]
    have hdata : dataOf (b.set 1026 x) = dataOf b := by
      unfold dataOf
      rw [hts, hblen, drop_set_outside x (by omega)]
    have hsig : sub (b.set 1026 x) 2 514 = sub b 2 514 :=
      sub_set_outside x (Or.inr (by omega))
    have hown : sub (b.set 1026 x) 514 1026 = sub b 514 1026 :=
      sub_set_outside x (Or.inr (by omega))
    unfold parseDataItem
    rw [hlen, h16, hco, hcount, hblen, hregion, hdata, hsig, hown, htr, har]
  · intro b v r hf hv h
    obtain ⟨-, -, -, -, h5, -, -, -, -, h10, -⟩ := parseDataItem_ok_inv h
    have ha : anchorRawOf b = none := by
      simp [anchorRawOf, hf, Option.some.injEq, hv]
    exact ⟨h10.trans ha, by rw [h5, ha]; rfl⟩

set_option maxRecDepth 1000000 in
set_option maxHeartbeats 1000000 in
/-- C7 counterexample: a blob whose target flag byte is 2 parses
successfully (target absent) instead of failing with a decode error. -/
theorem parse_flag_two_counterexample :
    parseDataItem blobFlag2 = .ok itemFlag2 ∧
    targetFlagAt blobFlag2 = some 2 ∧
    itemFlag2.target = none ∧ itemFlag2.targetRaw = none := by decide

set_option maxRecDepth 1000000 in
set_option maxHeartbeats 1000000 in
/-- C7 witness for the amended theorem, at the flag-2 blob. -/
theorem parse_flag_not_one_spec_witness :
    (targetFlagAt blobFlag2 = some 2 ∧ (2 : Nat) ≠ 1 ∧
      parseDataItem blobFlag2 = .ok itemFlag2) ∧
    (itemFlag2.targetRaw = none ∧ itemFlag2.target = none) ∧
    parseDataItem (blobFlag2.set 1026 0) = parseDataItem blobFlag2 := by
  have h1 : targetFlagAt blobFlag2 = some 2 := by decide
  have h2 : parseDataItem blobFlag2 = .ok itemFlag2 := by decide
  exact ⟨⟨h1, by decide, h2⟩,
    parse_flag_not_one_spec.1 blobFlag2 2 itemFlag2 h1 (by decide) h2,
    parse_flag_not_one_spec.2.1 blobFlag2 2 0 h1 (by decide) (by decide)⟩

/-! ## C5: anchor handling -/

/-- `contIn` unfolded to bounds. -/
theorem contIn_iff {lo hi b : Nat} : contIn lo hi b = true ↔ lo ≤ b ∧ b ≤ hi := by
  simp [contIn]

/-- Distinct valid code points give distinct characters. -/
theorem charOfNat_ne_nul {n : Nat} (h0 : n ≠ 0) (hv : n.isValidChar) :
    Char.ofNat n ≠ Char.ofNat 0 := by
  intro he
  have h1 := charOfNat_toNat hv
  rw [he] at h1
  have h2 : (Char.ofNat 0).toNat = 0 := by decide
  exact h0 (h2 ▸ h1).symm

/-- Decoding an all-zero byte list yields NUL characters only. -/
theorem utf8DecGo_zeros : ∀ f n, n ≤ f →
    utf8DecGo f (List.replicate n 0) = List.replicate n (Char.ofNat 0) := by
  intro f
  induction f with
  | zero => intro n hn; interval_cases n; simp [utf8DecGo]
  | succ f ih =>
    intro n hn
    match n with
    | 0 => simp [utf8DecGo]
    | m + 1 =>
      rw [List.replicate_succ, List.replicate_succ]
      show utf8DecGo (f + 1) (0 :: List.replicate m 0) = _
      rw [show utf8DecGo (f + 1) (0 :: List.replicate m 0) =
        Char.ofNat 0 :: utf8DecGo f (List.replicate m 0) by simp [utf8DecGo]]
      rw [ih m (by omega)]

/-- A nonzero byte anywhere in the input produces a non-NUL character in
the decoding (the head character of a step at a nonzero lead byte is
never NUL: ASCII yields the byte itself, invalid bytes yield U+FFFD, and
multi-byte sequences decode to code points of at least 0x80). -/
theorem utf8DecGo_ne_nul : ∀ f (l : List Nat), l.length ≤ f → (∃ x ∈ l, x ≠ 0) →
    ∃ c ∈ utf8DecGo f l, c ≠ Char.ofNat 0 := by
  intro f
  induction f with
  | zero =>
    intro l hl h
    obtain ⟨x, hx, -⟩ := h
    have hnil : l = [] := List.eq_nil_of_length_eq_zero (by omega)
    subst hnil
    cases hx
  | succ f ih =>
    intro l hl h
    match l with
    | [] => obtain ⟨x, hx, -⟩ := h; cases hx
    | b :: rest =>
      have hrepl : replChar ≠ Char.ofNat 0 := by decide
      by_cases hb : b = 0
      · subst hb
        obtain ⟨x, hx, hxne⟩ := h
        have hxr : x ∈ rest := by
          cases hx with
          | head => exact absurd rfl hxne
          | tail _ hmem => exact hmem
        obtain ⟨c, hc, hcne⟩ := ih rest (by simpa using Nat.le_of_succ_le_succ hl)
          ⟨x, hxr, hxne⟩
        refine ⟨c, ?_, hcne⟩
        rw [show utf8DecGo (f + 1) (0 :: rest) = Char.ofNat 0 :: utf8DecGo f rest by
          simp [utf8DecGo]]
        exact List.mem_cons_of_mem _ hc
      · by_cases h1 : b < 0x80
        · rw [show utf8DecGo (f + 1) (b :: rest) = Char.ofNat b :: utf8DecGo f rest by
            simp [utf8DecGo, h1]]
          exact ⟨Char.ofNat b, List.mem_cons_self _ _,
            charOfNat_ne_nul hb (Or.inl (by omega))⟩
        · by_cases h2 : b < 0xC2
          · rw [show utf8DecGo (f + 1) (b :: rest) = replChar :: utf8DecGo f rest by
              simp [utf8DecGo, h1, h2]]
            exact ⟨replChar, List.mem_cons_self _ _, hrepl⟩
          · by_cases h3 : b < 0xE0
            · -- two-byte lead
              match rest with
              | [] =>
                rw [show utf8DecGo (f + 1) [b] = [replChar] by simp [utf8DecGo, h1, h2, h3]]
                exact ⟨replChar, List.mem_cons_self _ _, hrepl⟩
              | c1 :: rs =>
                by_cases hc1 : contIn 0x80 0xBF c1 = true
                · obtain ⟨hc1a, hc1b⟩ := contIn_iff.mp hc1
                  rw [show utf8DecGo (f + 1) (b :: c1 :: rs) =
                    Char.ofNat ((b - 0xC0) * 64 + (c1 - 0x80)) :: utf8DecGo f rs by
                      simp [utf8DecGo, h1, h2, h3, hc1]]
                  exact ⟨_, List.mem_cons_self _ _,
                    charOfNat_ne_nul (by omega) (Or.inl (by omega))⟩
                · rw [show utf8DecGo (f + 1) (b :: c1 :: rs) =
                    replChar :: utf8DecGo f (c1 :: rs) by simp [utf8DecGo, h1, h2, h3, hc1]]
                  exact ⟨replChar, List.mem_cons_self _ _, hrepl⟩
            · by_cases h4 : b < 0xF0
              · -- three-byte lead
                match rest with
                | [] =>
                  rw [show utf8DecGo (f + 1) [b] = [replChar] by
                    simp [utf8DecGo, h1, h2, h3, h4]]
                  exact ⟨replChar, List.mem_cons_self _ _, hrepl⟩
                | c1 :: rs =>
                  by_cases hc1 : contIn (if b = 0xE0 then 0xA0 else 0x80)
                      (if b = 0xED then 0x9F else 0xBF) c1 = true
                  · obtain ⟨hc1a, hc1b⟩ := contIn_iff.mp hc1
                    match rs with
                    | [] =>
                      rw [show utf8DecGo (f + 1) [b, c1] = [replChar, replChar] by
                        simp [utf8DecGo, h1, h2, h3, h4, hc1]]
                      exact ⟨replChar, List.mem_cons_self _ _, hrepl⟩
                    | c2 :: rs2 =>
                      by_cases hc2 : contIn 0x80 0xBF c2 = true
                      · obtain ⟨hc2a, hc2b⟩ := contIn_iff.mp hc2
                        rw [show utf8DecGo (f + 1) (b :: c1 :: c2 :: rs2) =
                          Char.ofNat ((b - 0xE0) * 4096 + (c1 - 0x80) * 64 + (c2 - 0x80)) ::
                            utf8DecGo f rs2 by simp [utf8DecGo, h1, h2, h3, h4, hc1, hc2]]
                        refine ⟨_, List.mem_cons_self _ _, charOfNat_ne_nul ?_ ?_⟩
                        · split_ifs at hc1a <;> omega
                        · unfold Nat.isValidChar
                          by_cases he0 : b = 0xE0
                          · subst he0
                            rw [if_pos rfl] at hc1a
                            rw [if_neg (by decide)] at hc1b
                            left; omega
                          · by_cases hed : b = 0xED
                            · subst hed
                              rw [if_neg (by decide)] at hc1a
                              rw [if_pos rfl] at hc1b
                              left; omega
                            · rw [if_neg he0] at hc1a
                              rw [if_neg hed] at hc1b
                              rcases Nat.lt_or_ge b 0xED with hlt | hge
                              · left; omega
                              · right; constructor <;> omega
                      · rw [show utf8DecGo (f + 1) (b :: c1 :: c2 :: rs2) =
                          replChar :: utf8DecGo f (c2 :: rs2) by
                            simp [utf8DecGo, h1, h2, h3, h4, hc1, hc2]]
                        exact ⟨replChar, List.mem_cons_self _ _, hrepl⟩
                  · rw [show utf8DecGo (f + 1) (b :: c1 :: rs) =
                      replChar :: utf8DecGo f (c1 :: rs) by
                        simp [utf8DecGo, h1, h2, h3, h4, hc1]]
                    exact ⟨replChar, List.mem_cons_self _ _, hrepl⟩
              · by_cases h5 : b < 0xF5
                · -- four-byte lead
                  match rest with
                  | [] =>
                    rw [show utf8DecGo (f + 1) [b] = [replChar] by
                      simp [utf8DecGo, h1, h2, h3, h4, h5]]
                    exact ⟨replChar, List.mem_cons_self _ _, hrepl⟩
                  | c1 :: rs =>
                    by_cases hc1 : contIn (if b = 0xF0 then 0x90 else 0x80)
                        (if b = 0xF4 then 0x8F else 0xBF) c1 = true
                    · obtain ⟨hc1a, hc1b⟩ := contIn_iff.mp hc1
                      match rs with
                      | [] =>
                        rw [show utf8DecGo (f + 1) [b, c1] = [replChar, replChar] by
                          simp [utf8DecGo, h1, h2, h3, h4, h5, hc1]]
                        exact ⟨replChar, List.mem_cons_self _ _, hrepl⟩
                      | c2 :: rs2 =>
                        by_cases hc2 : contIn 0x80 0xBF c2 = true
                        · obtain ⟨hc2a, hc2b⟩ := contIn_iff.mp hc2
                          match rs2 with
                          | [] =>
                            rw [show utf8DecGo (f + 1) [b, c1, c2] =
                              [replChar, replChar, replChar] by
                                simp [utf8DecGo, h1, h2, h3, h4, h5, hc1, hc2]]
                            exact ⟨replChar, List.mem_cons_self _ _, hrepl⟩
                          | c3 :: rs3 =>
                            by_cases hc3 : contIn 0x80 0xBF c3 = true
                            · obtain ⟨hc3a, hc3b⟩ := contIn_iff.mp hc3
                              rw [show utf8DecGo (f + 1) (b :: c1 :: c2 :: c3 :: rs3) =
                                Char.ofNat ((b - 0xF0) * 262144 + (c1 - 0x80) * 4096 +
                                  (c2 - 0x80) * 64 + (c3 - 0x80)) :: utf8DecGo f rs3 by
                                  simp [utf8DecGo, h1, h2, h3, h4, h5, hc1, hc2, hc3]]
                              refine ⟨_, List.mem_cons_self _ _, charOfNat_ne_nul ?_ ?_⟩
                              · split_ifs at hc1a <;> omega
                              · unfold Nat.isValidChar
                                right
                                constructor
                                · split_ifs at hc1a <;> omega
                                · by_cases hf4 : b = 0xF4
                                  · subst hf4
                                    rw [if_neg (by decide)] at hc1a
                                    rw [if_pos rfl] at hc1b
                                    omega
                                  · rw [if_neg hf4] at hc1b
                                    split_ifs at hc1a <;> omega
                            · rw [show utf8DecGo (f + 1) (b :: c1 :: c2 :: c3 :: rs3) =
                                replChar :: utf8DecGo f (c3 :: rs3) by
                                  simp [utf8DecGo, h1, h2, h3, h4, h5, hc1, hc2, hc3]]
                              exact ⟨replChar, List.mem_cons_self _ _, hrepl⟩
                        · rw [show utf8DecGo (f + 1) (b :: c1 :: c2 :: rs2) =
                            replChar :: utf8DecGo f (c2 :: rs2) by
                              simp [utf8DecGo, h1, h2, h3, h4, h5, hc1, hc2]]
                          exact ⟨replChar, List.mem_cons_self _ _, hrepl⟩
                    · rw [show utf8DecGo (f + 1) (b :: c1 :: rs) =
                        replChar :: utf8DecGo f (c1 :: rs) by
                          simp [utf8DecGo, h1, h2, h3, h4, h5, hc1]]
                      exact ⟨replChar, List.mem_cons_self _ _, hrepl⟩
                · rw [show utf8DecGo (f + 1) (b :: rest) = replChar :: utf8DecGo f rest by
                    simp [utf8DecGo, h1, h2, h3, h4, h5]]
                  exact ⟨replChar, List.mem_cons_self _ _, hrepl⟩

/-- Trailing-NUL trimming empties an all-NUL string. -/
theorem trimNulTail_replicate (n : Nat) :
    trimNulTail (List.replicate n (Char.ofNat 0)) = [] := by
  unfold trimNulTail
  rw [List.reverse_replicate, List.dropWhile_eq_nil_iff.mpr ?_, List.reverse_nil]
  intro x hx
  simp [List.eq_of_mem_replicate hx]

/-- Trimming keeps a non-NUL character somewhere in the string. -/
theorem trimNulTail_ne_nil {l : List Char} (h : ∃ c ∈ l, c ≠ Char.ofNat 0) :
    trimNulTail l ≠ [] := by
  intro he
  unfold trimNulTail at he
  have h2 : l.reverse.dropWhile (fun c => c = Char.ofNat 0) = [] := by
    have := congrArg List.reverse he
    simpa using this
  have hall := List.dropWhile_eq_nil_iff.mp h2
  obtain ⟨c, hc, hne⟩ := h
  have := hall c (by simpa using hc)
  simp at this
  exact hne this

/-- C5 (amended): whenever the decoder reports an anchor, the validator
rejects with `DataItem must not have an anchor field` (as long as the
earlier size check passes and no target is reported); but an anchor
consisting of NUL bytes only is reported as *absent* — the anchor check
does not fire on it — while an anchor with any non-NUL byte is reported
present. -/
theorem anchor_rejection_spec :
    (∀ (tags : List Tag) (rawData : List Nat) (n : Nat) (s : String), n ≤ 12288 →
      validateDataItem 1 tags rawData n none (some s) =
        .fail "DataItem must not have an anchor field") ∧
    (∀ (b : List Nat) (r : ParsedDataItem), parseDataItem b = .ok r →
      anchorFlagAt b = some 1 →
      ((∀ x ∈ (anchorRawOf b).getD [], x = 0) → r.anchor = none) ∧
      ((∃ x ∈ (anchorRawOf b).getD [], x ≠ 0) → ∃ s, r.anchor = some s)) := by
  constructor
  · intro tags rawData n s hn
    rw [validateDataItem]
    rw [if_neg (by omega), if_neg (by simp), if_neg (by simp), if_pos (by simp)]
  · intro b r hp hflag
    have hanch := (parseDataItem_ok_inv hp).2.2.2.2.1
    have hraw : anchorRawOf b = some (sub b (anchorFlagOff b + 1) (anchorFlagOff b + 33)) := by
      rw [anchorRawOf, if_pos hflag]
    constructor
    · intro hz
      rw [hraw] at hanch hz
      simp only [Option.getD_some] at hz
      have hrep : sub b (anchorFlagOff b + 1) (anchorFlagOff b + 33) =
          List.replicate (sub b (anchorFlagOff b + 1) (anchorFlagOff b + 33)).length 0 :=
        List.eq_replicate_iff.mpr ⟨rfl, hz⟩
      rw [hanch, Option.some_bind]
      rw [show utf8Dec (sub b (anchorFlagOff b + 1) (anchorFlagOff b + 33)) =
        List.replicate (sub b (anchorFlagOff b + 1) (anchorFlagOff b + 33)).length
          (Char.ofNat 0) by
        conv_lhs => rw [hrep]
        rw [utf8Dec, List.length_replicate]
        exact utf8DecGo_zeros _ _ le_rfl]
      simp [trimNulTail_replicate]
    · intro hnz
      rw [hraw] at hanch hnz
      simp only [Option.getD_some] at hnz
      have hne : trimNulTail
          (utf8Dec (sub b (anchorFlagOff b + 1) (anchorFlagOff b + 33))) ≠ [] :=
        trimNulTail_ne_nil (utf8DecGo_ne_nul _ _ le_rfl hnz)
      simp only [hanch, Option.some_bind]
      rw [if_neg hne]
      exact ⟨_, rfl⟩

set_option maxRecDepth 1000000 in
set_option maxHeartbeats 4000000 in
/-- C5 counterexample: a blob whose anchor flag byte is 1 and whose
anchor is 32 NUL bytes sails through the decoder *and* the schema
validator — the pipeline accepts it instead of rejecting with the
anchor-not-allowed outcome. -/
theorem anchor_nul_accepted_counterexample :
    parseDataItem blobNulAnchor = .ok itemNulAnchor ∧
    anchorFlagAt blobNulAnchor = some 1 ∧
    (∀ x ∈ (anchorRawOf blobNulAnchor).getD [], x = 0) ∧
    itemNulAnchor.anchor = none ∧
    validateDataItem itemNulAnchor.signatureType itemNulAnchor.tags itemNulAnchor.rawData
      blobNulAnchor.length itemNulAnchor.target itemNulAnchor.anchor = .ok := by
  refine ⟨by decide, by decide, by decide, by decide, by decide⟩

set_option maxRecDepth 1000000 in
set_option maxHeartbeats 4000000 in
/-- C5 witness for the amended theorem. -/
theorem anchor_rejection_spec_witness :
    ((0 : Nat) ≤ 12288 ∧ validateDataItem 1 [] [] 0 none (some "x") =
      .fail "DataItem must not have an anchor field") ∧
    (parseDataItem blobNulAnchor = .ok itemNulAnchor ∧
      anchorFlagAt blobNulAnchor = some 1 ∧
      (∀ x ∈ (anchorRawOf blobNulAnchor).getD [], x = 0) ∧
      itemNulAnchor.anchor = none) := by
  have hp : parseDataItem blobNulAnchor = .ok itemNulAnchor := by decide
  have hf : anchorFlagAt blobNulAnchor = some 1 := by decide
  have hz : ∀ x ∈ (anchorRawOf blobNulAnchor).getD [], x = 0 := by decide
  exact ⟨⟨by decide, anchor_rejection_spec.1 [] [] 0 "x" (by decide)⟩,
    hp, hf, hz, (anchor_rejection_spec.2 blobNulAnchor itemNulAnchor hp hf).1 hz⟩

/-! ## C6: the varint reader at the end of the buffer -/

/-- The reader's loop at or past the end of the buffer stops on its
first iteration: the out-of-bounds read behaves as byte 0, whose
continuation bit is clear. -/
theorem rzvLoop_at_end (f : Nat) (buf : List Nat) (off : Int)
    (h : (buf.length : Int) ≤ off) :
    rzvLoop (f + 1) buf off 0 off = (0, 1) := by
  have hcond : ¬ (0 ≤ off ∧ off.toNat < buf.length) := by
    rintro ⟨h0, hlt⟩
    omega
  rw [rzvLoop]
  simp only [hcond, if_false, sub_self, zero_mul]
  have h1 : jsAnd 0 0x7f = 0 := by decide
  have h2 : jsShl 0 0 = 0 := by decide
  have h3 : jsOr 0 0 = 0 := by decide
  have h4 : jsAnd 0 0x80 = 0 := by decide
  rw [h1, h2, h3, if_pos h4]
  have h6 : (off + 1 - off).toNat = 1 := by omega
  rw [h6]

/-- The loop lemma for any positive fuel. -/
theorem rzvLoop_at_end1 (f : Nat) (hf : 1 ≤ f) (buf : List Nat) (off : Int)
    (h : (buf.length : Int) ≤ off) :
    rzvLoop f buf off 0 off = (0, 1) := by
  match f, hf with
  | g + 1, _ => exact rzvLoop_at_end g buf off h

/-- C6 (amended): reaching the end of the buffer does not fail the
reader: the out-of-bounds read behaves as byte 0, whose continuation bit
is clear, so the reader returns the value accumulated so far (here 0)
and counts the phantom byte as consumed. -/
theorem readZigzagVarint_at_end (buf : List Nat) (off : Int)
    (h : (buf.length : Int) ≤ off) :
    readZigzagVarint buf off = (0, 1) := by
  have hl := rzvLoop_at_end1 (buf.length + 2) (by omega) buf off h
  show (jsXor (jsShrU (rzvLoop (buf.length + 2) buf off 0 off).1 1)
      (-(jsAnd (rzvLoop (buf.length + 2) buf off 0 off).1 1)),
    (rzvLoop (buf.length + 2) buf off 0 off).2) = (0, 1)
  rw [hl]
  decide

set_option maxRecDepth 10000 in
/-- C6 counterexample: a buffer ending inside a varint (continuation bit
set on its last byte) is read *successfully* — `[0x80]` yields value 0
with 2 positions consumed — and a tag region that ends inside a name
field still decodes to a tag list instead of failing. -/
theorem varint_underflow_counterexample :
    readZigzagVarint [128] 0 = (0, 2) ∧
    decodeAvroTags [2, 4, 97] = .ok [⟨"a", ""⟩] := by
  constructor <;> decide

/-- C6 witness for the amended theorem. -/
theorem readZigzagVarint_at_end_witness :
    ((([] : List Nat).length : Int) ≤ 0) ∧ readZigzagVarint [] 0 = (0, 1) :=
  ⟨by decide, readZigzagVarint_at_end [] 0 (by decide)⟩

/-! ## C8: invalid UTF-8 in tags is replaced, not rejected -/

/-- `a & 0x7f` is the identity below 128. -/
theorem jsAnd_byte127 (b : Nat) (hb : b < 128) : jsAnd (b : Int) 0x7f = (b : Int) := by
  interval_cases b <;> decide

/-- Bytes below 128 have the continuation bit clear. -/
theorem jsAnd_byte128 (b : Nat) (hb : b < 128) : jsAnd (b : Int) 0x80 = 0 := by
  interval_cases b <;> decide

/-- Left shift by 0 is the identity on small values. -/
theorem jsShl_byte0 (b : Nat) (hb : b < 128) : jsShl (b : Int) 0 = (b : Int) := by
  interval_cases b <;> decide

/-- `0 | b` is `b` on small values. -/
theorem jsOr_zero_byte (b : Nat) (hb : b < 128) : jsOr 0 (b : Int) = (b : Int) := by
  interval_cases b <;> decide

/-- Zig-zag decoding of a small even accumulated value. -/
theorem zigzag_even (b : Nat) (hb : b < 128) (hev : b % 2 = 0) :
    jsXor (jsShrU (b : Int) 1) (-(jsAnd (b : Int) 1)) = ((b / 2 : Nat) : Int) := by
  interval_cases b <;> revert hev <;> decide

/-- A single-byte varint read: a byte below 128 terminates immediately,
and when even it zig-zag decodes to half its value. -/
theorem rzv_even (buf : List Nat) (off b : Nat) (hb : buf[off]? = some b)
    (hlt : b < 128) (hev : b % 2 = 0) :
    readZigzagVarint buf (off : Int) = (((b / 2 : Nat) : Int), 1) := by
  have hl : off < buf.length := (List.getElem?_eq_some.mp hb).1
  have hloop : rzvLoop (buf.length + 2) buf (off : Int) 0 (off : Int) = ((b : Int), 1) := by
    rw [show buf.length + 2 = (buf.length + 1) + 1 from rfl, rzvLoop]
    have hcond : (0 : Int) ≤ (off : Int) ∧ ((off : Int)).toNat < buf.length := by
      constructor
      · omega
      · simpa using hl
    rw [if_pos hcond]
    have hbyte : buf.getD ((off : Int)).toNat 0 = b := by
      rw [Int.toNat_ofNat, List.getD_eq_getElem?_getD, hb]
      rfl
    rw [hbyte, sub_self, zero_mul, jsAnd_byte127 b hlt, jsShl_byte0 b hlt,
      jsOr_zero_byte b hlt, if_pos (jsAnd_byte128 b hlt)]
    have : ((off : Int) + 1 - (off : Int)).toNat = 1 := by omega
    rw [this]
  show (jsXor (jsShrU (rzvLoop (buf.length + 2) buf (off : Int) 0 (off : Int)).1 1)
      (-(jsAnd (rzvLoop (buf.length + 2) buf (off : Int) 0 (off : Int)).1 1)),
    (rzvLoop (buf.length + 2) buf (off : Int) 0 (off : Int)).2) = _
  rw [hloop]
  show (jsXor (jsShrU (b : Int) 1) (-(jsAnd (b : Int) 1)), 1) = _
  rw [zigzag_even b hlt hev]

/-- `subarray` with nonnegative in-range integer indices is the
clamped natural-number slice. -/
theorem subI_ofNat (l : List Nat) (s e : Nat) :
    subI l (s : Int) (e : Int) = sub l s e := by
  simp only [subI, sub]
  rw [if_neg (by omega), if_neg (by omega)]
  have hs : (min (s : Int) (l.length : Int)).toNat = min s l.length := by
    rw [← Nat.cast_min, Int.toNat_ofNat]
  have he : (min (e : Int) (l.length : Int)).toNat = min e l.length := by
    rw [← Nat.cast_min, Int.toNat_ofNat]
  rw [hs, he]
  have ht : l.take (min e l.length) = l.take e := by
    rcases le_total e l.length with h | h
    · rw [min_eq_left h]
    · rw [min_eq_right h, List.take_length, List.take_of_length_le h]
  rw [ht]
  rcases le_total s l.length with h | h
  · rw [min_eq_left h]
  · rw [min_eq_right h]
    rw [List.drop_eq_nil_of_le (by simp), List.drop_eq_nil_of_le (by simp; omega)]

/-- The empty slice. -/
theorem sub_self_nil (l : List Nat) (s : Nat) : sub l s s = [] := by
  apply List.drop_eq_nil_of_le
  simp

/-- C8 (amended): a tag region whose name field holds *any* byte
sequence — valid UTF-8 or not — decodes successfully; the name is the
replacement-character decoding of those bytes.  Decoding never fails on
invalid UTF-8. -/
theorem decodeAvroTags_any_name (n : List Nat) (hn : n.length ≤ 63) :
    decodeAvroTags ([2, 2 * n.length] ++ n ++ [0]) = .ok [⟨utf8Str n, ""⟩] := by
  have hlen : ((2 :: 2 * n.length :: (n ++ [0])) : List Nat).length = n.length + 3 := by
    simp
  have h0 : readZigzagVarint (2 :: 2 * n.length :: (n ++ [0])) 0 = (1, 1) := by
    have hb : ((2 :: 2 * n.length :: (n ++ [0])) : List Nat)[0]? = some 2 := rfl
    have := rzv_even _ 0 2 hb (by omega) (by omega)
    simpa using this
  have h1 : readZigzagVarint (2 :: 2 * n.length :: (n ++ [0])) 1 = ((n.length : Int), 1) := by
    have hb : ((2 :: 2 * n.length :: (n ++ [0])) : List Nat)[1]? = some (2 * n.length) := by
      simp
    have := rzv_even _ 1 (2 * n.length) hb (by omega) (by omega)
    rw [show ((1 : Nat) : Int) = (1 : Int) from rfl] at this
    rw [this]
    congr 1
    omega
  have h2 : readZigzagVarint (2 :: 2 * n.length :: (n ++ [0])) ((n.length + 2 : Nat) : Int) =
      (0, 1) := by
    have hb : ((2 :: 2 * n.length :: (n ++ [0])) : List Nat)[n.length + 2]? = some 0 := by
      show ((2 :: 2 * n.length :: n) ++ [0] : List Nat)[n.length + 2]? = some 0
      rw [List.getElem?_append_right (by simp)]
      simp
    have := rzv_even _ (n.length + 2) 0 hb (by omega) (by omega)
    simpa using this
  have hname : sub (2 :: 2 * n.length :: (n ++ [0])) 2 (n.length + 2) = n := by
    show (((2 :: 2 * n.length :: (n ++ [0])) : List Nat).take (n.length + 2)).drop 2 = n
    rw [show n.length + (2 : Nat) = n.length + 1 + 1 from by omega]
    rw [List.take_succ_cons, List.take_succ_cons]
    simp [List.take_left]
  show avroLoop (((2 :: 2 * n.length :: (n ++ [0])) : List Nat).length + 1)
    (2 :: 2 * n.length :: (n ++ [0])) 0 [] = _
  rw [hlen, avroLoop]
  simp only [hlen, h0]
  rw [if_pos (show (0 : Int) < ((n.length + 3 : Nat) : Int) from by push_cast; omega)]
  rw [if_neg (show (1 : Int) ≠ 0 from by omega)]
  rw [if_neg (show ¬((1 : Int) < 0) from by omega)]
  rw [show Int.natAbs 1 = 1 from rfl, List.nil_append]
  rw [show (0 : Int) + ((1 : Nat) : Int) = (1 : Int) from by omega]
  rw [readPairs]
  simp only [h1]
  rw [show (1 : Int) + ((1 : Nat) : Int) + ((n.length : Nat) : Int)
        = ((n.length + 2 : Nat) : Int) from by omega]
  simp only [h2]
  rw [show (1 : Int) + ((1 : Nat) : Int) = ((2 : Nat) : Int) from by omega]
  rw [show ((n.length + 2 : Nat) : Int) + ((1 : Nat) : Int)
        = ((n.length + 3 : Nat) : Int) from by omega]
  rw [add_zero, subI_ofNat, subI_ofNat, hname, sub_self_nil]
  simp only [readPairs]
  rw [show n.length + 3 = (n.length + 2) + 1 from rfl, avroLoop, hlen]
  rw [if_neg (show ¬(((n.length + 3 : Nat) : Int) < ((n.length + 3 : Nat) : Int)) from by omega)]
  rfl

/-- C8 counterexample: the tag region `[2, 2, 255, 0]` declares one tag
whose 1-byte name is `0xFF`, which is not valid UTF-8 in any position;
the decoder nevertheless succeeds, returning the replacement character
U+FFFD as the name, refuting both that decoding fails with
`InvalidTagEncoding` and that no tag derived from invalid UTF-8 is ever
returned. -/
theorem decodeAvroTags_invalid_utf8_counterexample :
    decodeAvroTags [2, 2, 255, 0] = .ok [⟨"�", ""⟩] := by decide

theorem decodeAvroTags_any_name_witness :
    [(200 : Nat)].length ≤ 63 ∧
      decodeAvroTags ([2, 2 * [(200 : Nat)].length] ++ [200] ++ [0]) =
        .ok [⟨utf8Str [200], ""⟩] :=
  ⟨by decide, decodeAvroTags_any_name [200] (by decide)⟩

/-! ## C9: the SDK-Version minimum -/

/-- Spec wording: strict lexicographic (component-wise) order on
`MAJOR.MINOR.PATCH` triples. -/
def lexLt (a b : Nat × Nat × Nat) : Bool :=
  decide (a.1 < b.1) ||
    (decide (a.1 = b.1) &&
      (decide (a.2.1 < b.2.1) ||
        (decide (a.2.1 = b.2.1) && decide (a.2.2 < b.2.2))))

/-- `semverGte` fails exactly on lexicographically smaller triples. -/
theorem semverGte_false_iff (a b : Nat × Nat × Nat) :
    semverGte a b = false ↔ lexLt a b = true := by
  rcases a with ⟨a1, a2, a3⟩
  rcases b with ⟨b1, b2, b3⟩
  simp only [semverGte, lexLt]
  split_ifs <;> simp_all <;> omega

/-- Every string of the strict `MAJOR.MINOR.PATCH` shape parses. -/
theorem isSemver_parseSemver (s : String) (hs : isSemver s = true) :
    ∃ M m p, parseSemver s = some (M, m, p) := by
  unfold isSemver at hs
  unfold parseSemver
  split at hs
  next d1 r1 heq1 =>
    simp only [Bool.and_eq_true, decide_eq_true_eq] at hs
    obtain ⟨hd1, hs⟩ := hs
    split at hs
    next d2 r2 heq2 =>
      simp only [Bool.and_eq_true, decide_eq_true_eq, List.all_eq_true] at hs
      obtain ⟨⟨hd2, hr2ne⟩, hall⟩ := hs
      have h3 : r2.span isDigitCh = (r2, []) := by
        rw [List.span_eq_take_drop]
        rw [List.takeWhile_eq_self_iff.mpr, List.dropWhile_eq_nil_iff.mpr]
        · intro x hx
          exact hall x hx
        · intro x hx
          exact hall x hx
      refine ⟨natOfDigits d1, natOfDigits d2, natOfDigits r2, ?_⟩
      rw [if_neg hd1, if_neg hd2, h3]
      show (if r2 = [] then none
        else some (natOfDigits d1, natOfDigits d2, natOfDigits r2)) = _
      rw [if_neg hr2ne]
    next hne => simp at hs
  next hne => simp at hs

set_option maxRecDepth 1000000 in
set_option maxHeartbeats 2000000 in
/-- C9: for every SDK-Version tag of the strict `MAJOR.MINOR.PATCH`
digits-only shape, parsing succeeds and the minimum-version gate
(`semverGte · minSdkVersion`) fails exactly when the parsed triple is
lexicographically below `(0, 2, 0)`; in particular the full validator
rejects `0.1.9` with the below-minimum error and accepts `0.2.0`. -/
theorem semver_minimum_spec (s : String) (hs : isSemver s = true) :
    (∃ M m p, parseSemver s = some (M, m, p) ∧
        (semverGte (M, m, p) minSdkVersion = false ↔ lexLt (M, m, p) (0, 2, 0) = true)) ∧
      validateDataItem 1 tags019 bodyValid 500 none none =
        .fail "SDK-Version 0.1.9 is below minimum 0.2.0" ∧
      validateDataItem 1 tagsValid bodyValid 500 none none = .ok := by
  refine ⟨?_, by decide, by decide⟩
  obtain ⟨M, m, p, hp⟩ := isSemver_parseSemver s hs
  exact ⟨M, m, p, hp, semverGte_false_iff (M, m, p) minSdkVersion⟩

set_option maxRecDepth 1000000 in
set_option maxHeartbeats 2000000 in
theorem semver_minimum_spec_witness :
    isSemver "0.1.9" = true ∧
      ((∃ M m p, parseSemver "0.1.9" = some (M, m, p) ∧
          (semverGte (M, m, p) minSdkVersion = false ↔ lexLt (M, m, p) (0, 2, 0) = true)) ∧
        validateDataItem 1 tags019 bodyValid 500 none none =
          .fail "SDK-Version 0.1.9 is below minimum 0.2.0" ∧
        validateDataItem 1 tagsValid bodyValid 500 none none = .ok) :=
  ⟨by decide, semver_minimum_spec "0.1.9" (by decide)⟩

/-! ## C3: schema totality -/

/-- The nine tag names the validator requires. -/
def requiredTagNames : List String :=
  ["App-Name", "Content-Type", "Hash", "Namespace", "Session-ID", "Sequence",
   "Notarized-At", "Notarized-Date-UTC", "SDK-Version"]

/-- The five body fields the validator requires. -/
def bodyFieldNames : List String :=
  ["hash", "namespace", "notarized_at", "sdk_version", "v"]

/-- The four tag/body cross-checked pairs. -/
def crossPairs : List (String × String) :=
  [("Hash", "hash"), ("Namespace", "namespace"),
   ("Notarized-At", "notarized_at"), ("SDK-Version", "sdk_version")]

/-- First tag of a given name. -/
def findTag (tags : List Tag) (n : String) : Option String :=
  (tags.find? fun t => t.name = n).map (·.value)

/-- The spec's schema-totality property: exactly 9 pairwise-distinct
tags covering all required names; the payload a JSON object of exactly
the five string fields with `v = "1"`; and the four cross pairs equal. -/
def schemaTotality (tags : List Tag) (rawData : List Nat) : Prop :=
  tags.length = 9 ∧
  (tags.map Tag.name).Nodup ∧
  (∀ n ∈ requiredTagNames, ∃ v, findTag tags n = some v) ∧
  ∃ kvs, jsonParse (utf8Str rawData) = some (.obj kvs) ∧
    kvs.length = 5 ∧
    (kvs.map Prod.fst).Perm bodyFieldNames ∧
    (∀ f ∈ bodyFieldNames, ∃ v, jlookup kvs f = some (.str v)) ∧
    jlookup kvs "v" = some (.str "1") ∧
    (∀ q ∈ crossPairs, ∃ v, findTag tags q.1 = some v ∧ jlookup kvs q.2 = some (Json.str v))

/-- A passed tag check yields the tag's value and continues. -/
theorem reqTag_ok {v? : Option String} {test : String → Bool} {msg : String}
    {k : String → ValidationResult} (h : reqTag v? test msg k = .ok) :
    ∃ v, v? = some v ∧ k v = .ok := by
  cases v? with
  | none => exact ValidationResult.noConfusion h
  | some v =>
    simp only [reqTag] at h
    split at h
    · exact ValidationResult.noConfusion h
    · exact ⟨v, rfl, h⟩

/-- A passed body-field check yields the field's string value. -/
theorem reqBodyStr_ok {v? : Option Json} {test : String → Bool} {msg : String}
    {k : String → ValidationResult} (h : reqBodyStr v? test msg k = .ok) :
    ∃ v, v? = some (.str v) ∧ test v = true ∧ k v = .ok := by
  unfold reqBodyStr at h
  split at h
  next v =>
    split at h
    · exact ValidationResult.noConfusion h
    · next hnt =>
      refine ⟨v, rfl, ?_, h⟩
      revert hnt
      cases test v <;> simp
  next => exact ValidationResult.noConfusion h

/-- A successful `Map` build is the tag list as ordered pairs after the
initial accumulator. -/
theorem buildTagMap_ok_eq (ts : List Tag) (acc m : List (String × String))
    (h : buildTagMap ts acc = .ok m) :
    m = acc ++ ts.map fun t => (t.name, t.value) := by
  induction ts generalizing acc with
  | nil =>
    simp only [buildTagMap] at h
    injection h with h
    simp [h.symm]
  | cons t ts ih =>
    simp only [buildTagMap] at h
    split at h
    · exact Except.noConfusion h
    · have := ih _ h
      simpa using this

/-- A successful `Map` build has pairwise-distinct keys. -/
theorem buildTagMap_ok_nodup (ts : List Tag) (acc m : List (String × String))
    (hacc : (acc.map Prod.fst).Nodup) (h : buildTagMap ts acc = .ok m) :
    (m.map Prod.fst).Nodup := by
  induction ts generalizing acc with
  | nil =>
    simp only [buildTagMap] at h
    injection h with h
    exact h ▸ hacc
  | cons t ts ih =>
    simp only [buildTagMap] at h
    split at h
    · exact Except.noConfusion h
    · next hfind =>
      refine ih (acc ++ [(t.name, t.value)]) ?_ h
      have hnone : acc.find? (fun p => p.1 = t.name) = none := by
        cases hf : acc.find? (fun p => p.1 = t.name) with
        | none => rfl
        | some p => rw [hf] at hfind; simp at hfind
      rw [List.map_append]
      refine List.Nodup.append hacc (List.nodup_singleton _) ?_
      intro x hx hx2
      simp only [List.map_cons, List.map_nil, List.mem_singleton] at hx2
      subst hx2
      obtain ⟨p, hp, hp1⟩ := List.mem_map.mp hx
      have := List.find?_eq_none.mp hnone p hp
      simp [hp1] at this

/-- Looking a name up in the built map is looking it up in the tags. -/
theorem mget_map_pair (tags : List Tag) (n : String) :
    mget (tags.map fun t => (t.name, t.value)) n = findTag tags n := by
  unfold mget findTag
  rw [List.find?_map, Option.map_map]
  rfl

/-- A present JSON member's key is among the object's keys. -/
theorem jlookup_mem {kvs : List (String × Json)} {k : String} {v : Json}
    (h : jlookup kvs k = some v) : k ∈ kvs.map Prod.fst := by
  unfold jlookup at h
  cases hf : kvs.find? (fun p => p.1 = k) with
  | none => rw [hf] at h; exact Option.noConfusion h
  | some p =>
    have hm := List.mem_of_find?_eq_some hf
    have hp : p.1 = k := by simpa using List.find?_some hf
    exact hp ▸ List.mem_map_of_mem Prod.fst hm

/-- Inversion of a passed body check: the payload is a 5-member JSON
object whose fields are strings equal to the cross-checked tags. -/
theorem validateBody_ok {hashTag nsTag naTag svTag : String} {rawData : List Nat}
    (h : validateBody hashTag nsTag naTag svTag rawData = .ok) :
    ∃ kvs, jsonParse (utf8Str rawData) = some (.obj kvs) ∧
      kvs.length = 5 ∧
      jlookup kvs "hash" = some (.str hashTag) ∧
      jlookup kvs "namespace" = some (.str nsTag) ∧
      jlookup kvs "notarized_at" = some (.str naTag) ∧
      jlookup kvs "sdk_version" = some (.str svTag) ∧
      jlookup kvs "v" = some (.str "1") := by
  unfold validateBody at h
  split at h
  · exact ValidationResult.noConfusion h
  next json hj =>
    split at h
    next kvs =>
      split at h
      · exact ValidationResult.noConfusion h
      next hlen5 =>
        obtain ⟨hashV, hh, _, h⟩ := reqBodyStr_ok h
        obtain ⟨nsV, hn, _, h⟩ := reqBodyStr_ok h
        obtain ⟨naV, hna, _, h⟩ := reqBodyStr_ok h
        obtain ⟨svV, hsv, _, h⟩ := reqBodyStr_ok h
        obtain ⟨vV, hv, htv, h⟩ := reqBodyStr_ok h
        split at h
        · exact ValidationResult.noConfusion h
        next he1 =>
        split at h
        · exact ValidationResult.noConfusion h
        next he2 =>
        split at h
        · exact ValidationResult.noConfusion h
        next he3 =>
        split at h
        · exact ValidationResult.noConfusion h
        next he4 =>
        have hv1 : vV = "1" := by simpa using htv
        refine ⟨kvs, hj, by omega, ?_, ?_, ?_, ?_, ?_⟩
        · rw [hh, (not_not.mp he1).symm]
        · rw [hn, (not_not.mp he2).symm]
        · rw [hna, (not_not.mp he3).symm]
        · rw [hsv, (not_not.mp he4).symm]
        · rw [hv, hv1]
    next => exact ValidationResult.noConfusion h

/-- Inversion of the per-tag checks: every required tag is present and
the body check ran on the cross-checked tag values. -/
theorem validateTags_ok {m : List (String × String)} {raw : List Nat}
    (h : validateTags m raw = .ok) :
    mget m "App-Name" = some "agentsystems-notary" ∧
    mget m "Content-Type" = some "application/json" ∧
    ∃ hashV nsV sidV seqV naV ndV svV,
      mget m "Hash" = some hashV ∧
      mget m "Namespace" = some nsV ∧
      mget m "Session-ID" = some sidV ∧
      mget m "Sequence" = some seqV ∧
      mget m "Notarized-At" = some naV ∧
      mget m "Notarized-Date-UTC" = some ndV ∧
      mget m "SDK-Version" = some svV ∧
      validateBody hashV nsV naV svV raw = .ok := by
  simp only [validateTags] at h
  split at h
  · exact ValidationResult.noConfusion h
  next hApp =>
  split at h
  · exact ValidationResult.noConfusion h
  next hCt =>
  obtain ⟨hashV, hH, h⟩ := reqTag_ok h
  obtain ⟨nsV, hN, h⟩ := reqTag_ok h
  obtain ⟨sidV, hS, h⟩ := reqTag_ok h
  obtain ⟨seqV, hQ, h⟩ := reqTag_ok h
  obtain ⟨naV, hA, h⟩ := reqTag_ok h
  obtain ⟨ndV, hD, h⟩ := reqTag_ok h
  obtain ⟨svV, hV, h⟩ := reqTag_ok h
  split at h
  · exact ValidationResult.noConfusion h
  next ver hver =>
  split at h
  · exact ValidationResult.noConfusion h
  split at h
  · exact ValidationResult.noConfusion h
  exact ⟨not_not.mp hApp, not_not.mp hCt,
    hashV, nsV, sidV, seqV, naV, ndV, svV, hH, hN, hS, hQ, hA, hD, hV, h⟩

/-- C3: every input the validator accepts satisfies schema totality —
exactly 9 pairwise-distinct tags covering the nine required names, a
5-field JSON body of strings with `v = "1"`, and the four cross pairs
byte-equal between tag and body. -/
theorem validate_ok_schema (st : Nat) (tags : List Tag) (raw : List Nat)
    (n : Nat) (t a : Option String)
    (h : validateDataItem st tags raw n t a = .ok) : schemaTotality tags raw := by
  unfold validateDataItem at h
  split at h
  · exact ValidationResult.noConfusion h
  split at h
  · exact ValidationResult.noConfusion h
  split at h
  · exact ValidationResult.noConfusion h
  split at h
  · exact ValidationResult.noConfusion h
  split at h
  · exact ValidationResult.noConfusion h
  next hlen =>
  split at h
  · exact ValidationResult.noConfusion h
  next m hbt =>
  have hm : m = tags.map fun t => (t.name, t.value) := by
    simpa using buildTagMap_ok_eq tags [] m hbt
  have hkeys : m.map Prod.fst = tags.map Tag.name := by
    rw [hm, List.map_map]
    rfl
  have hnd : (tags.map Tag.name).Nodup := by
    rw [← hkeys]
    exact buildTagMap_ok_nodup tags [] m (by simp) hbt
  obtain ⟨hApp, hCt, hashV, nsV, sidV, seqV, naV, ndV, svV,
    hH, hN, hS, hQ, hA, hD, hV, hbody⟩ := validateTags_ok h
  rw [hm, mget_map_pair] at hApp hCt hH hN hS hQ hA hD hV
  obtain ⟨kvs, hj, hk5, jh, jn, jna, jsv, jv⟩ := validateBody_ok hbody
  refine ⟨by omega, hnd, ?_, kvs, hj, hk5, ?_, ?_, jv, ?_⟩
  · intro nm hnm
    simp only [requiredTagNames, List.mem_cons, List.not_mem_nil, or_false] at hnm
    rcases hnm with rfl | rfl | rfl | rfl | rfl | rfl | rfl | rfl | rfl
    · exact ⟨_, hApp⟩
    · exact ⟨_, hCt⟩
    · exact ⟨_, hH⟩
    · exact ⟨_, hN⟩
    · exact ⟨_, hS⟩
    · exact ⟨_, hQ⟩
    · exact ⟨_, hA⟩
    · exact ⟨_, hD⟩
    · exact ⟨_, hV⟩
  · have hsub : ∀ f ∈ bodyFieldNames, f ∈ kvs.map Prod.fst := by
      intro f hf
      simp only [bodyFieldNames, List.mem_cons, List.not_mem_nil, or_false] at hf
      rcases hf with rfl | rfl | rfl | rfl | rfl
      · exact jlookup_mem jh
      · exact jlookup_mem jn
      · exact jlookup_mem jna
      · exact jlookup_mem jsv
      · exact jlookup_mem jv
    have hnodupF : bodyFieldNames.Nodup := by decide
    have hsp := hnodupF.subperm hsub
    exact (hsp.perm_of_length_le (by simp [hk5, bodyFieldNames])).symm
  · intro f hf
    simp only [bodyFieldNames, List.mem_cons, List.not_mem_nil, or_false] at hf
    rcases hf with rfl | rfl | rfl | rfl | rfl
    · exact ⟨_, jh⟩
    · exact ⟨_, jn⟩
    · exact ⟨_, jna⟩
    · exact ⟨_, jsv⟩
    · exact ⟨_, jv⟩
  · intro q hq
    simp only [crossPairs, List.mem_cons, List.not_mem_nil, or_false] at hq
    rcases hq with rfl | rfl | rfl | rfl
    · exact ⟨hashV, hH, jh⟩
    · exact ⟨nsV, hN, jn⟩
    · exact ⟨naV, hA, jna⟩
    · exact ⟨svV, hV, jsv⟩

set_option maxRecDepth 1000000 in
set_option maxHeartbeats 2000000 in
theorem validate_ok_schema_witness :
    validateDataItem 1 tagsValid bodyValid 500 none none = .ok ∧
      schemaTotality tagsValid bodyValid :=
  ⟨by decide, validate_ok_schema 1 tagsValid bodyValid 500 none none (by decide)⟩

/-! ## C10: permutation invariance of the verdict -/

/-- With globally distinct names the `Map` build always succeeds. -/
theorem buildTagMap_complete (ts : List Tag) (acc : List (String × String))
    (hnd : (acc.map Prod.fst ++ ts.map Tag.name).Nodup) :
    buildTagMap ts acc = .ok (acc ++ ts.map fun t => (t.name, t.value)) := by
  induction ts generalizing acc with
  | nil => simp [buildTagMap]
  | cons t ts ih =>
    simp only [buildTagMap]
    have hnotin : t.name ∉ acc.map Prod.fst := by
      intro hin
      rw [List.map_cons] at hnd
      exact (List.disjoint_of_nodup_append hnd) hin (by simp)
    have hnone : acc.find? (fun p => p.1 = t.name) = none := by
      rw [List.find?_eq_none]
      intro p hp hps
      have hps' : p.1 = t.name := by simpa using hps
      exact hnotin (hps' ▸ List.mem_map_of_mem Prod.fst hp)
    rw [hnone]
    simp only [Option.isSome_none, Bool.false_eq_true, if_false]
    have := ih (acc ++ [(t.name, t.value)]) (by
      rw [List.map_append, List.append_assoc]
      simpa using hnd)
    rw [this]
    simp

/-- With pairwise-distinct keys, key lookup is permutation-invariant. -/
theorem find?_key_perm {l l' : List (String × String)} (hp : l.Perm l')
    (hnd : (l.map Prod.fst).Nodup) (n : String) :
    l.find? (fun p => p.1 = n) = l'.find? (fun p => p.1 = n) := by
  cases hf : l.find? (fun p => p.1 = n) with
  | none =>
    cases hf' : l'.find? (fun p => p.1 = n) with
    | none => rfl
    | some q =>
      have hq := List.mem_of_find?_eq_some hf'
      have := List.find?_eq_none.mp hf q (hp.mem_iff.mpr hq)
      have hq1 := List.find?_some hf'
      simp_all
  | some p =>
    have hpmem := List.mem_of_find?_eq_some hf
    have hp1 : p.1 = n := by simpa using List.find?_some hf
    cases hf' : l'.find? (fun p => p.1 = n) with
    | none =>
      have := List.find?_eq_none.mp hf' p (hp.mem_iff.mp hpmem)
      simp [hp1] at this
    | some q =>
      have hqmem := hp.mem_iff.mpr (List.mem_of_find?_eq_some hf')
      have hq1 : q.1 = n := by simpa using List.find?_some hf'
      have hinj := List.inj_on_of_nodup_map hnd
      exact congrArg some (hinj hqmem hpmem (by rw [hq1, hp1])).symm

/-- The per-tag checks depend on the map only through lookups. -/
theorem validateTags_congr {m m' : List (String × String)} (raw : List Nat)
    (hm : ∀ n, mget m n = mget m' n) :
    validateTags m raw = validateTags m' raw := by
  simp only [validateTags, hm]

/-- C10: the accept/reject verdict of the validator is invariant under
permutation of the tag list (error messages may differ). -/
theorem validate_perm_verdict (st : Nat) (tags tags' : List Tag) (raw : List Nat)
    (n : Nat) (t a : Option String) (hp : tags.Perm tags') :
    (validateDataItem st tags raw n t a).isOkB =
      (validateDataItem st tags' raw n t a).isOkB := by
  unfold validateDataItem
  rw [hp.length_eq]
  split_ifs
  any_goals rfl
  cases h1 : buildTagMap tags [] with
  | error e =>
    have hnn : ¬ (tags.map Tag.name).Nodup := by
      intro hnd
      have := buildTagMap_complete tags [] (by simpa using hnd)
      rw [this] at h1
      exact Except.noConfusion h1
    cases h2 : buildTagMap tags' [] with
    | error e' => rfl
    | ok m' =>
      have hnd' : (tags'.map Tag.name).Nodup := by
        have hk := buildTagMap_ok_nodup tags' [] m' (by simp) h2
        have hm' : m' = tags'.map fun t => (t.name, t.value) := by
          simpa using buildTagMap_ok_eq tags' [] m' h2
        rw [hm', List.map_map] at hk
        exact hk
      exact absurd (((hp.map Tag.name).nodup_iff).mpr hnd') hnn
  | ok m =>
    have hm : m = tags.map fun t => (t.name, t.value) := by
      simpa using buildTagMap_ok_eq tags [] m h1
    have hnd : (tags.map Tag.name).Nodup := by
      have hk := buildTagMap_ok_nodup tags [] m (by simp) h1
      rw [hm, List.map_map] at hk
      exact hk
    have hnd' : (tags'.map Tag.name).Nodup := ((hp.map Tag.name).nodup_iff).mp hnd
    have h2 := buildTagMap_complete tags' [] (by simpa using hnd')
    rw [h2]
    show (validateTags m raw).isOkB =
      (validateTags (tags'.map fun t => (t.name, t.value)) raw).isOkB
    have hmm : ∀ nm, mget m nm = mget (tags'.map fun t => (t.name, t.value)) nm := by
      intro nm
      rw [hm]
      unfold mget
      rw [find?_key_perm (hp.map fun t => (t.name, t.value)) (by
        rw [List.map_map]
        exact hnd) nm]
    rw [validateTags_congr raw hmm]

/-- `tagsValid` with its first two tags exchanged. -/
def tagsSwap : List Tag :=
  [⟨"Content-Type", "application/json"⟩,
   ⟨"App-Name", "agentsystems-notary"⟩,
   ⟨"Hash", hex64a⟩,
   ⟨"Namespace", hex64b⟩,
   ⟨"Session-ID", "12345678-1234-1234-1234-123456789abc"⟩,
   ⟨"Sequence", "0"⟩,
   ⟨"Notarized-At", "2024-06-01T12:34:56Z"⟩,
   ⟨"Notarized-Date-UTC", "2024-06-01"⟩,
   ⟨"SDK-Version", "0.2.0"⟩]

theorem validate_perm_verdict_witness :
    tagsValid.Perm tagsSwap ∧
      (validateDataItem 1 tagsValid bodyValid 500 none none).isOkB =
        (validateDataItem 1 tagsSwap bodyValid 500 none none).isOkB :=
  ⟨by simp only [tagsValid, tagsSwap]; exact List.Perm.swap _ _ _,
    validate_perm_verdict 1 tagsValid tagsSwap bodyValid 500 none none
      (by simp only [tagsValid, tagsSwap]; exact List.Perm.swap _ _ _)⟩
